import Mathlib

/-!
Verification of the RepoMind cache/analytics/AI-provider glue layer.

This file gives a shallow embedding, in Lean, of the parts of the
repository that the checked claims are about:

* a model of JSON values together with the serialization used by the
  self-hosted cache provider (`JSON.stringify` on write, `JSON.parse`
  on read), from `src/lib/cache-provider/redis-provider.ts`;
* a model of the Redis backend state (one keyspace whose entries are
  strings, sets, or hashes, as in Redis) and of every public method of
  `RedisProvider`, including its pipeline;
* the analytics layer `trackEvent` / `getAnalyticsData` from the
  analytics module;
* the AI-provider factory selection logic and the fail-fast provider
  constructors;
* the query-selection cache-key normalization from `src/lib/cache.ts`.

Numbers are modelled as unbounded integers: every numeric value the
embedded code stores or parses is an integer (timestamps, counters),
and JavaScript serializes integral doubles in plain decimal, which is
what the encoder below produces.  Strings are modelled over Lean
`Char` (Unicode scalar values); lone surrogates, which cannot occur in
values produced by this code, are outside the model.
-/

namespace RepoMind

mutual

/-- A JSON value.  Arrays and objects use the mutually-defined list
types `JsArr` and `JsObj` so that all functions on them are structural
(and hence kernel-reducible). -/
inductive JsValue where
  | null : JsValue
  | bool (b : Bool) : JsValue
  | num (n : Int) : JsValue
  | str (s : String) : JsValue
  | arr (elems : JsArr) : JsValue
  | obj (fields : JsObj) : JsValue
deriving DecidableEq

/-- A list of JSON values (array contents). -/
inductive JsArr where
  | nil : JsArr
  | cons (v : JsValue) (rest : JsArr) : JsArr
deriving DecidableEq

/-- A list of string-keyed JSON fields (object contents). -/
inductive JsObj where
  | nil : JsObj
  | cons (k : String) (v : JsValue) (rest : JsObj) : JsObj
deriving DecidableEq

end

/-- Is a character an ASCII decimal digit? -/
def isDigitChar (c : Char) : Bool := 48 ≤ c.toNat && c.toNat ≤ 57

/-- The ASCII digit for a value below ten. -/
def digitChar : Nat → Char
  | 0 => '0' | 1 => '1' | 2 => '2' | 3 => '3' | 4 => '4'
  | 5 => '5' | 6 => '6' | 7 => '7' | 8 => '8' | _ => '9'

/-- Numeric value of an ASCII digit. -/
def digitVal (c : Char) : Nat := c.toNat - 48

/-- Decimal digits of `n`, most significant first; the fuel only needs
to exceed the number of digits.  Structural in the fuel, so the kernel
can evaluate it. -/
def natChars : Nat → Nat → List Char
  | 0, _ => []
  | fuel + 1, n =>
    if n < 10 then [digitChar n]
    else natChars fuel (n / 10) ++ [digitChar (n % 10)]

/-- Decimal representation of a natural number, as `JSON.stringify`
and `String` produce it for non-negative integral numbers. -/
def encodeNat (n : Nat) : List Char := natChars (n + 1) n

/-- Decimal representation of an integer (minus sign for negatives),
matching the JavaScript decimal printing of integral numbers. -/
def encodeInt (n : Int) : List Char :=
  if n < 0 then '-' :: encodeNat n.natAbs else encodeNat n.toNat

/-- Lower-case hexadecimal digit, as produced by `JSON.stringify` in
`\u00XX` escapes. -/
def hexDigitChar : Nat → Char
  | 0 => '0' | 1 => '1' | 2 => '2' | 3 => '3' | 4 => '4'
  | 5 => '5' | 6 => '6' | 7 => '7' | 8 => '8' | 9 => '9'
  | 10 => 'a' | 11 => 'b' | 12 => 'c' | 13 => 'd' | 14 => 'e' | _ => 'f'

/-- Is a character a hexadecimal digit (either case)? -/
def isHexDigit (c : Char) : Bool :=
  (48 ≤ c.toNat && c.toNat ≤ 57) ||
  (97 ≤ c.toNat && c.toNat ≤ 102) ||
  (65 ≤ c.toNat && c.toNat ≤ 70)

/-- Numeric value of a hexadecimal digit. -/
def hexVal (c : Char) : Nat :=
  if 48 ≤ c.toNat && c.toNat ≤ 57 then c.toNat - 48
  else if 97 ≤ c.toNat && c.toNat ≤ 102 then c.toNat - 87
  else c.toNat - 55

/-- How `JSON.stringify` escapes one character inside a string
literal: quote and backslash get a backslash escape, the named control
characters get their short escapes, the remaining control characters
become `\u00XX`, and everything else is emitted verbatim. -/
def escapeChar (c : Char) : List Char :=
  if c = '"' then ['\\', '"']
  else if c = '\\' then ['\\', '\\']
  else if c = '\x08' then ['\\', 'b']
  else if c = '\x09' then ['\\', 't']
  else if c = '\x0a' then ['\\', 'n']
  else if c = '\x0c' then ['\\', 'f']
  else if c = '\x0d' then ['\\', 'r']
  else if c.toNat < 32 then
    ['\\', 'u', '0', '0', hexDigitChar (c.toNat / 16), hexDigitChar (c.toNat % 16)]
  else [c]

/-- Escape every character of a string body. -/
def escapeList : List Char → List Char
  | [] => []
  | c :: cs => escapeChar c ++ escapeList cs

/-- A JSON string literal: opening quote, escaped body, closing quote. -/
def encodeStr (s : String) : List Char :=
  '"' :: escapeList s.data ++ ['"']

/-- The keyword `JSON.stringify` emits for the null value. -/
def litNull : List Char := 'n' :: 'u' :: 'l' :: ['l']

/-- The keyword `JSON.stringify` emits for the boolean true. -/
def litTrue : List Char := 't' :: 'r' :: 'u' :: ['e']

/-- The keyword `JSON.stringify` emits for the boolean false. -/
def litFalse : List Char := 'f' :: 'a' :: 'l' :: 's' :: ['e']

mutual

/-- `JSON.stringify`, producing the canonical whitespace-free output
of the JavaScript runtime on the modelled value space. -/
def encodeVal : JsValue → List Char
  | .null => litNull
  | .bool true => litTrue
  | .bool false => litFalse
  | .num n => encodeInt n
  | .str s => encodeStr s
  | .arr a => '[' :: encodeArr a ++ [']']
  | .obj o => '{' :: encodeObj o ++ ['}']

/-- Comma-separated encodings of array elements. -/
def encodeArr : JsArr → List Char
  | .nil => []
  | .cons v rest => encodeVal v ++ arrSep rest

/-- The remaining array elements, each preceded by a comma. -/
def arrSep : JsArr → List Char
  | .nil => []
  | .cons w rest => ',' :: (encodeVal w ++ arrSep rest)

/-- Comma-separated `"key":value` encodings of object fields. -/
def encodeObj : JsObj → List Char
  | .nil => []
  | .cons k v rest => encodeStr k ++ ':' :: (encodeVal v ++ objSep rest)

/-- The remaining object fields, each preceded by a comma. -/
def objSep : JsObj → List Char
  | .nil => []
  | .cons k v rest => ',' :: (encodeStr k ++ ':' :: (encodeVal v ++ objSep rest))

end

/-- The string `JSON.stringify` produces for a value. -/
def jsonStringify (v : JsValue) : String := String.mk (encodeVal v)

/-- Parse a run of decimal digits, accumulating into `acc`; stops at
the first non-digit and returns it with the rest of the input. -/
def parseDigits (acc : Nat) : List Char → Nat × List Char
  | [] => (acc, [])
  | c :: cs =>
    if isDigitChar c then parseDigits (acc * 10 + digitVal c) cs
    else (acc, c :: cs)

/-- Prepend a character to the string collected by `parseStrBody`. -/
def consFst (c : Char) : Option (List Char × List Char) → Option (List Char × List Char)
  | some (s, r) => some (c :: s, r)
  | none => none

/-- Parse the body of a JSON string literal (after the opening quote)
up to and including the closing quote, undoing the escapes accepted by
`JSON.parse`.  Unescaped control characters and unknown escapes are
rejected, as `JSON.parse` rejects them. -/
def parseStrBody : List Char → Option (List Char × List Char)
  | [] => none
  | c :: rest =>
    if c = '"' then some ([], rest)
    else if c = '\\' then
      match rest with
      | [] => none
      | e :: r2 =>
        if e = '"' then consFst '"' (parseStrBody r2)
        else if e = '\\' then consFst '\\' (parseStrBody r2)
        else if e = '/' then consFst '/' (parseStrBody r2)
        else if e = 'b' then consFst '\x08' (parseStrBody r2)
        else if e = 't' then consFst '\x09' (parseStrBody r2)
        else if e = 'n' then consFst '\x0a' (parseStrBody r2)
        else if e = 'f' then consFst '\x0c' (parseStrBody r2)
        else if e = 'r' then consFst '\x0d' (parseStrBody r2)
        else if e = 'u' then
          match r2 with
          | h1 :: h2 :: h3 :: h4 :: r3 =>
            if isHexDigit h1 && isHexDigit h2 && isHexDigit h3 && isHexDigit h4 then
              consFst (Char.ofNat
                (hexVal h1 * 4096 + hexVal h2 * 256 + hexVal h3 * 16 + hexVal h4))
                (parseStrBody r3)
            else none
          | _ => none
        else none
    else if c.toNat < 32 then none
    else consFst c (parseStrBody rest)

/-- Wrap a parsed string body as a string value. -/
def strRes : Option (List Char × List Char) → Option (JsValue × List Char)
  | some (s, r) => some (.str (String.mk s), r)
  | none => none

/-- Wrap parsed array contents as an array value. -/
def arrRes : Option (JsArr × List Char) → Option (JsValue × List Char)
  | some (a, r) => some (.arr a, r)
  | none => none

/-- Wrap parsed object contents as an object value. -/
def objRes : Option (JsObj × List Char) → Option (JsValue × List Char)
  | some (o, r) => some (.obj o, r)
  | none => none

/-- Prepend an element to parsed array contents. -/
def consArrRes (v : JsValue) : Option (JsArr × List Char) → Option (JsArr × List Char)
  | some (a, r) => some (.cons v a, r)
  | none => none

/-- Prepend a field to parsed object contents. -/
def consObjRes (k : String) (v : JsValue) :
    Option (JsObj × List Char) → Option (JsObj × List Char)
  | some (o, r) => some (.cons k v o, r)
  | none => none

mutual

/-- Recursive-descent parser for the whitespace-free JSON emitted by
the encoder above (the only strings the modelled provider ever parses
are ones it produced itself, which contain no insignificant
whitespace).  The fuel bounds the nesting depth; `jsonParse` supplies
enough for any input. -/
def parseVal : Nat → List Char → Option (JsValue × List Char)
  | 0, _ => none
  | fuel + 1, cs =>
    match cs with
    | [] => none
    | c :: rest =>
      if c = 'n' then
        match rest with
        | c1 :: c2 :: c3 :: r =>
          if c1 = 'u' && c2 = 'l' && c3 = 'l' then some (.null, r) else none
        | _ => none
      else if c = 't' then
        match rest with
        | c1 :: c2 :: c3 :: r =>
          if c1 = 'r' && c2 = 'u' && c3 = 'e' then some (.bool true, r) else none
        | _ => none
      else if c = 'f' then
        match rest with
        | c1 :: c2 :: c3 :: c4 :: r =>
          if c1 = 'a' && c2 = 'l' && c3 = 's' && c4 = 'e' then some (.bool false, r) else none
        | _ => none
      else if c = '"' then strRes (parseStrBody rest)
      else if c = '[' then
        match rest with
        | [] => none
        | x :: r => if x = ']' then some (.arr .nil, r) else arrRes (parseArr fuel (x :: r))
      else if c = '{' then
        match rest with
        | [] => none
        | x :: r => if x = '}' then some (.obj .nil, r) else objRes (parseObj fuel (x :: r))
      else if c = '-' then
        match rest with
        | d :: r =>
          if isDigitChar d then
            let p := parseDigits (digitVal d) r
            some (.num (-(p.1 : Int)), p.2)
          else none
        | [] => none
      else if isDigitChar c then
        let p := parseDigits (digitVal c) rest
        some (.num (p.1 : Int), p.2)
      else none

/-- Parse one or more comma-separated array elements followed by a
closing bracket. -/
def parseArr : Nat → List Char → Option (JsArr × List Char)
  | 0, _ => none
  | fuel + 1, cs =>
    (parseVal fuel cs).bind (fun vr =>
      match vr.2 with
      | [] => none
      | x :: r =>
        if x = ',' then consArrRes vr.1 (parseArr fuel r)
        else if x = ']' then some (.cons vr.1 .nil, r)
        else none)

/-- Parse one or more comma-separated `"key":value` fields followed by
a closing brace. -/
def parseObj : Nat → List Char → Option (JsObj × List Char)
  | 0, _ => none
  | fuel + 1, cs =>
    match cs with
    | [] => none
    | c :: rest =>
      if c = '"' then
        (parseStrBody rest).bind (fun kr =>
          match kr.2 with
          | [] => none
          | x :: r =>
            if x = ':' then
              (parseVal fuel r).bind (fun vr =>
                match vr.2 with
                | [] => none
                | y :: r2 =>
                  if y = ',' then consObjRes (String.mk kr.1) vr.1 (parseObj fuel r2)
                  else if y = '}' then some (.cons (String.mk kr.1) vr.1 .nil, r2)
                  else none)
            else none)
      else none

end

/-- `JSON.parse`: parse a complete value, requiring the whole input to
be consumed. -/
def jsonParse (s : String) : Option JsValue :=
  (parseVal (s.data.length + 1) s.data).bind
    (fun vr => if vr.2 = [] then some vr.1 else none)

/-- The continuation after a complete JSON value never starts with a
digit: this is what makes the delimiter-free number encoding
unambiguous. -/
def headOkB : List Char → Bool
  | [] => true
  | c :: _ => !isDigitChar c

/-- Digit characters evaluate back to their value. -/
theorem digitChar_facts : ∀ d, d < 10 →
    isDigitChar (digitChar d) = true ∧ digitVal (digitChar d) = d := by decide

/-- Every character `natChars` emits is a digit. -/
theorem natChars_digits : ∀ fuel n c, c ∈ natChars fuel n → isDigitChar c = true := by
  intro fuel
  induction fuel with
  | zero => intro n c h; simp [natChars] at h
  | succ f ih =>
    intro n c h
    by_cases h10 : n < 10
    · simp [natChars, h10] at h
      subst h
      exact (digitChar_facts n h10).1
    · simp [natChars, h10] at h
      rcases h with h | h
      · exact ih _ _ h
      · subst h
        exact (digitChar_facts _ (Nat.mod_lt _ (by omega))).1

/-- `natChars` with positive fuel is never empty. -/
theorem natChars_ne_nil (fuel n : Nat) : natChars (fuel + 1) n ≠ [] := by
  by_cases h10 : n < 10 <;> simp [natChars, h10]

/-- The accumulating step used by the digit parser. -/
def digitStep (a : Nat) (c : Char) : Nat := a * 10 + digitVal c

/-- Folding the parser step over the digits of `n` recovers `n`
(shifted past the accumulator). -/
theorem foldl_natChars : ∀ fuel n acc, n < 10 ^ fuel →
    List.foldl digitStep acc (natChars fuel n)
      = acc * 10 ^ (natChars fuel n).length + n := by
  intro fuel
  induction fuel with
  | zero =>
    intro n acc h
    have : n = 0 := by simpa using h
    subst this
    simp [natChars]
  | succ f ih =>
    intro n acc h
    by_cases h10 : n < 10
    · simp [natChars, h10, digitStep, (digitChar_facts n h10).2]
    · have hdiv : n / 10 < 10 ^ f := by
        rw [Nat.div_lt_iff_lt_mul (by norm_num)]
        calc n < 10 ^ (f + 1) := h
          _ = 10 ^ f * 10 := by ring
      have hmod : n % 10 < 10 := Nat.mod_lt _ (by norm_num)
      simp only [natChars, if_neg h10, List.foldl_append, List.foldl_cons, List.foldl_nil,
        List.length_append, List.length_cons, List.length_nil]
      rw [ih _ acc hdiv]
      simp only [digitStep, (digitChar_facts _ hmod).2, pow_succ]
      generalize (10 : Nat) ^ (natChars f (n / 10)).length = X
      have hdm := Nat.div_add_mod n 10
      ring_nf
      omega

/-- The digit parser consumes exactly an all-digit block when the
continuation does not start with a digit. -/
theorem parseDigits_append : ∀ (ds : List Char) (acc : Nat) (rest : List Char),
    (∀ c ∈ ds, isDigitChar c = true) → headOkB rest = true →
    parseDigits acc (ds ++ rest) = (List.foldl digitStep acc ds, rest) := by
  intro ds
  induction ds with
  | nil =>
    intro acc rest _ hrest
    match rest with
    | [] => simp [parseDigits]
    | c :: t =>
      simp only [headOkB, Bool.not_eq_true'] at hrest
      simp [parseDigits, hrest]
  | cons c t ih =>
    intro acc rest hds hrest
    have hc : isDigitChar c = true := hds c (by simp)
    simp only [List.cons_append, parseDigits, hc, if_pos, List.append_eq]
    rw [ih _ rest (fun x hx => hds x (by simp [hx])) hrest]
    simp [digitStep]

/-- `n` is below `10 ^ (n + 1)`, so `encodeNat` always has enough fuel. -/
theorem lt_ten_pow (n : Nat) : n < 10 ^ (n + 1) := by
  calc n < 2 ^ n := Nat.lt_two_pow n
    _ ≤ 10 ^ n := Nat.pow_le_pow_left (by norm_num) n
    _ ≤ 10 ^ (n + 1) := Nat.pow_le_pow_right (by norm_num) (by omega)

/-- Shape of the decimal encoding: a digit head, digit tail, and the
digit parser started on it recovers exactly `n`. -/
theorem parseDigits_encodeNat : ∀ (n : Nat) (rest : List Char), headOkB rest = true →
    ∃ c ds, encodeNat n = c :: ds ∧ isDigitChar c = true ∧
      parseDigits (digitVal c) (ds ++ rest) = (n, rest) := by
  intro n rest hrest
  have hne := natChars_ne_nil n n
  match henc : natChars (n + 1) n with
  | [] => exact absurd henc hne
  | c :: ds =>
    have hdig : ∀ x ∈ c :: ds, isDigitChar x = true := by
      intro x hx
      exact natChars_digits (n + 1) n x (by rw [henc]; exact hx)
    refine ⟨c, ds, by simp [encodeNat, henc], hdig c (by simp), ?_⟩
    have hfold := foldl_natChars (n + 1) n 0 (lt_ten_pow n)
    rw [henc] at hfold
    have := parseDigits_append ds (digitVal c) rest (fun x hx => hdig x (by simp [hx])) hrest
    rw [this]
    simp only [List.foldl_cons, digitStep] at hfold
    simp only [Nat.zero_mul, Nat.zero_add] at hfold
    rw [hfold]

/-- Hex digits evaluate back to their value. -/
theorem hexDigitChar_facts : ∀ d, d < 16 →
    isHexDigit (hexDigitChar d) = true ∧ hexVal (hexDigitChar d) = d := by decide

/-- Parsing undoes escaping: the string-literal body parser, run on an
escaped body followed by the closing quote, returns exactly the
original characters. -/
theorem parseStrBody_escape : ∀ (cs rest : List Char),
    parseStrBody (escapeList cs ++ '"' :: rest) = some (cs, rest) := by
  intro cs
  induction cs with
  | nil =>
    intro rest
    rw [escapeList, List.nil_append, parseStrBody.eq_def]
    simp
  | cons c t ih =>
    intro rest
    simp only [escapeList, List.append_assoc]
    by_cases h1 : c = '"'
    · subst h1
      rw [escapeChar]
      simp only [if_pos rfl, List.cons_append, List.nil_append]
      rw [parseStrBody.eq_def]
      simp [ih rest, consFst]
    by_cases h2 : c = '\\'
    · subst h2
      rw [escapeChar]
      norm_num
      rw [parseStrBody.eq_def]
      simp [ih rest, consFst]
    by_cases h3 : c = '\x08'
    · subst h3
      rw [escapeChar]
      norm_num
      rw [parseStrBody.eq_def]
      simp [ih rest, consFst]
    by_cases h4 : c = '\x09'
    · subst h4
      rw [escapeChar]
      norm_num
      rw [parseStrBody.eq_def]
      simp [ih rest, consFst]
    by_cases h5 : c = '\x0a'
    · subst h5
      rw [escapeChar]
      norm_num
      rw [parseStrBody.eq_def]
      simp [ih rest, consFst]
    by_cases h6 : c = '\x0c'
    · subst h6
      rw [escapeChar]
      norm_num
      rw [parseStrBody.eq_def]
      simp [ih rest, consFst]
    by_cases h7 : c = '\x0d'
    · subst h7
      rw [escapeChar]
      norm_num
      rw [parseStrBody.eq_def]
      simp [ih rest, consFst]
    by_cases h8 : c.toNat < 32
    · have hdiv : c.toNat / 16 < 16 := by omega
      have hmod : c.toNat % 16 < 16 := Nat.mod_lt _ (by norm_num)
      have hd := hexDigitChar_facts _ hdiv
      have hm := hexDigitChar_facts _ hmod
      simp only [escapeChar, if_neg h1, if_neg h2, if_neg h3, if_neg h4, if_neg h5,
        if_neg h6, if_neg h7, if_pos h8, List.cons_append, List.nil_append]
      rw [parseStrBody.eq_def]
      simp [hd.1, hm.1, hd.2, hm.2, consFst, ih rest]
      have hval : hexVal ('0' : Char) * 4096 + hexVal ('0' : Char) * 256
          + c.toNat / 16 * 16 + c.toNat % 16 = c.toNat := by
        have h0 : hexVal ('0' : Char) = 0 := by decide
        rw [h0]
        omega
      exact ⟨by decide, by rw [hval, Char.ofNat_toNat]⟩
    · simp only [escapeChar, if_neg h1, if_neg h2, if_neg h3, if_neg h4, if_neg h5,
        if_neg h6, if_neg h7, if_neg h8, List.cons_append, List.nil_append]
      rw [parseStrBody.eq_def]
      simp only [if_neg h1, if_neg h2, if_neg h8, ih rest, consFst]

mutual

/-- Structural size of a value, used as parser fuel. -/
def jsizeV : JsValue → Nat
  | .null => 1
  | .bool _ => 1
  | .num _ => 1
  | .str _ => 1
  | .arr a => 1 + jsizeA a
  | .obj o => 1 + jsizeO o

/-- Structural size of array contents. -/
def jsizeA : JsArr → Nat
  | .nil => 0
  | .cons v rest => 1 + jsizeV v + jsizeA rest

/-- Structural size of object contents. -/
def jsizeO : JsObj → Nat
  | .nil => 0
  | .cons _ v rest => 1 + jsizeV v + jsizeO rest

end

/-- Every value has positive size. -/
theorem jsizeV_pos (v : JsValue) : 1 ≤ jsizeV v := by
  cases v <;> simp [jsizeV]

/-- Rebuilding a string from its character list is the identity. -/
theorem stringMk_data (s : String) : String.mk s.data = s := by
  cases s
  rfl

/-- A digit character is none of the characters the value parser
treats specially. -/
theorem isDigitChar_ne {c : Char} (h : isDigitChar c = true) :
    c ≠ 'n' ∧ c ≠ 't' ∧ c ≠ 'f' ∧ c ≠ '"' ∧ c ≠ '[' ∧ c ≠ '{' ∧ c ≠ '-' ∧
    c ≠ ']' ∧ c ≠ '}' ∧ c ≠ ',' ∧ c ≠ ':' := by
  refine ⟨?_, ?_, ?_, ?_, ?_, ?_, ?_, ?_, ?_, ?_, ?_⟩ <;>
    · intro e
      subst e
      revert h
      decide

/-- The decimal encoding of a natural number starts with a digit. -/
theorem encodeNat_shape (n : Nat) :
    ∃ c ds, encodeNat n = c :: ds ∧ isDigitChar c = true := by
  have hne := natChars_ne_nil n n
  match henc : natChars (n + 1) n with
  | [] => exact absurd henc hne
  | c :: ds =>
    exact ⟨c, ds, by simp [encodeNat, henc],
      natChars_digits (n + 1) n c (by rw [henc]; simp)⟩

/-- The encoding of any value starts with a character that is not a
closing bracket, a closing brace, a comma, or a colon — so the
one-token lookahead in the array/object parsers cannot be fooled. -/
theorem encodeVal_head (v : JsValue) :
    ∃ c cs, encodeVal v = c :: cs ∧ c ≠ ']' ∧ c ≠ '}' := by
  match v with
  | .null => exact ⟨'n', _, rfl, by decide, by decide⟩
  | .bool true => exact ⟨'t', _, rfl, by decide, by decide⟩
  | .bool false => exact ⟨'f', _, rfl, by decide, by decide⟩
  | .str s => exact ⟨'"', _, rfl, by decide, by decide⟩
  | .arr a => exact ⟨'[', _, rfl, by decide, by decide⟩
  | .obj o => exact ⟨'{', _, rfl, by decide, by decide⟩
  | .num n =>
    by_cases hn : n < 0
    · refine ⟨'-', encodeNat n.natAbs, ?_, by decide, by decide⟩
      simp [encodeVal, encodeInt, hn]
    · obtain ⟨c, ds, henc, hdig⟩ := encodeNat_shape n.toNat
      refine ⟨c, ds, ?_, (isDigitChar_ne hdig).2.2.2.2.2.2.2.1, (isDigitChar_ne hdig).2.2.2.2.2.2.2.2.1⟩
      simp [encodeVal, encodeInt, hn, henc]

/-- The size of a value is bounded by the length of its encoding (and
similarly for the comma-prefixed tails), so encoding length plus one
is always enough parser fuel. -/
theorem sizes_le : ∀ n : Nat,
    (∀ v : JsValue, jsizeV v ≤ n → jsizeV v ≤ (encodeVal v).length) ∧
    (∀ a : JsArr, jsizeA a ≤ n → jsizeA a ≤ (arrSep a).length) ∧
    (∀ o : JsObj, jsizeO o ≤ n → jsizeO o ≤ (objSep o).length) := by
  intro n
  induction n with
  | zero =>
    refine ⟨fun v hv => absurd (jsizeV_pos v) (by omega), fun a ha => ?_, fun o ho => ?_⟩
    · cases a with
      | nil => simp [jsizeA]
      | cons v rest => simp [jsizeA] at ha
    · cases o with
      | nil => simp [jsizeO]
      | cons k v rest => simp [jsizeO] at ho
  | succ m ih =>
    obtain ⟨ihV, ihA, ihO⟩ := ih
    refine ⟨fun v hv => ?_, fun a ha => ?_, fun o ho => ?_⟩
    · match v with
      | .null => simp [jsizeV, encodeVal, litNull]
      | .bool b => cases b <;> simp [jsizeV, encodeVal, litTrue, litFalse]
      | .num k =>
        obtain ⟨c, cs, henc, _, _⟩ := encodeVal_head (.num k)
        simp [jsizeV, henc]
      | .str s => simp [jsizeV, encodeVal, encodeStr]
      | .arr a =>
        have h1 : jsizeA a ≤ (arrSep a).length := by
          apply ihA
          simp [jsizeV] at hv
          omega
        cases a with
        | nil => simp [jsizeV, jsizeA, encodeVal, encodeArr]
        | cons w rest =>
          simp [jsizeV, jsizeA, encodeVal, encodeArr, arrSep] at h1 ⊢
          have h2 : jsizeV w ≤ (encodeVal w).length := by
            apply ihV
            simp [jsizeV, jsizeA] at hv
            omega
          omega
      | .obj o =>
        have h1 : jsizeO o ≤ (objSep o).length := by
          apply ihO
          simp [jsizeV] at hv
          omega
        cases o with
        | nil => simp [jsizeV, jsizeO, encodeVal, encodeObj]
        | cons k w rest =>
          simp [jsizeV, jsizeO, encodeVal, encodeObj, objSep] at h1 ⊢
          have h2 : jsizeV w ≤ (encodeVal w).length := by
            apply ihV
            simp [jsizeV, jsizeO] at hv
            omega
          omega
    · cases a with
      | nil => simp [jsizeA]
      | cons w rest =>
        simp [jsizeA] at ha ⊢
        have h2 : jsizeV w ≤ (encodeVal w).length := by
          apply ihV
          omega
        have h3 : jsizeA rest ≤ (arrSep rest).length := by
          apply ihA
          omega
        simp [arrSep]
        omega
    · cases o with
      | nil => simp [jsizeO]
      | cons k w rest =>
        simp [jsizeO] at ho ⊢
        have h2 : jsizeV w ≤ (encodeVal w).length := by
          apply ihV
          omega
        have h3 : jsizeO rest ≤ (objSep rest).length := by
          apply ihO
          omega
        simp [objSep]
        omega

/-- After the `[` of a non-empty array, the one-token `]` lookahead
falls through and the element parser runs. -/
theorem parseVal_arr_cons (f : Nat) (w : JsValue) (a' : JsArr) (tail : List Char) :
    parseVal (f + 1) ('[' :: (encodeArr (.cons w a') ++ tail))
      = arrRes (parseArr f (encodeArr (.cons w a') ++ tail)) := by
  obtain ⟨c, cs, hv, hc1, hc2⟩ := encodeVal_head w
  rw [encodeArr, hv]
  rw [parseVal.eq_def]
  simp [hc1]

theorem parse_encode : ∀ fuel : Nat,
    (∀ v rest, jsizeV v ≤ fuel → headOkB rest = true →
      parseVal fuel (encodeVal v ++ rest) = some (v, rest)) ∧
    (∀ a rest, jsizeA a ≤ fuel → a ≠ JsArr.nil →
      parseArr fuel (encodeArr a ++ ']' :: rest) = some (a, rest)) ∧
    (∀ o rest, jsizeO o ≤ fuel → o ≠ JsObj.nil →
      parseObj fuel (encodeObj o ++ '}' :: rest) = some (o, rest)) := by
  intro fuel
  induction fuel with
  | zero =>
    refine ⟨fun v rest hsz _ => absurd (jsizeV_pos v) (by omega), ?_, ?_⟩
    · intro a rest hsz hne
      cases a with
      | nil => exact absurd rfl hne
      | cons w a' => simp [jsizeA] at hsz
    · intro o rest hsz hne
      cases o with
      | nil => exact absurd rfl hne
      | cons k w o' => simp [jsizeO] at hsz
  | succ f ih =>
    obtain ⟨ihV, ihA, ihO⟩ := ih
    refine ⟨?_, ?_, ?_⟩
    · intro v rest hsz hrest
      match v with
      | .null =>
        rw [encodeVal, parseVal.eq_def]
        simp [litNull]
      | .bool true =>
        rw [encodeVal, parseVal.eq_def]
        simp [litTrue]
      | .bool false =>
        rw [encodeVal, parseVal.eq_def]
        simp [litFalse]
      | .num k =>
        by_cases hk : k < 0
        · obtain ⟨c, ds, henc, hdig, hparse⟩ := parseDigits_encodeNat k.natAbs rest hrest
          rw [encodeVal, encodeInt, if_pos hk, henc]
          rw [parseVal.eq_def]
          simp only [List.cons_append, List.append_eq]
          simp [hdig, hparse]
          rw [abs_of_neg hk, neg_neg]
        · obtain ⟨c, ds, henc, hdig, hparse⟩ := parseDigits_encodeNat k.toNat rest hrest
          obtain ⟨hn1, hn2, hn3, hn4, hn5, hn6, hn7, _⟩ := isDigitChar_ne hdig
          rw [encodeVal, encodeInt, if_neg hk, henc]
          rw [parseVal.eq_def]
          simp only [List.cons_append, List.append_eq]
          have hval : ((k.toNat : Nat) : Int) = k := Int.toNat_of_nonneg (by omega)
          simp [hn1, hn2, hn3, hn4, hn5, hn6, hn7, hdig, hparse, hval]
      | .str s =>
        rw [encodeVal, encodeStr]
        rw [parseVal.eq_def]
        simp only [List.cons_append, List.append_assoc, List.nil_append]
        simp [parseStrBody_escape s.data rest, strRes, stringMk_data]
      | .arr .nil =>
        rw [encodeVal, encodeArr]
        rw [parseVal.eq_def]
        simp
      | .arr (.cons w a') =>
        have hsa : jsizeA (JsArr.cons w a') ≤ f := by
          simp [jsizeV, jsizeA] at hsz ⊢
          omega
        rw [encodeVal]
        have hshape : ('[' :: encodeArr (.cons w a') ++ [']']) ++ rest
            = '[' :: (encodeArr (.cons w a') ++ ']' :: rest) := by
          simp
        rw [hshape, parseVal_arr_cons]
        rw [ihA _ rest hsa (by simp)]
        rfl
      | .obj .nil =>
        rw [encodeVal, encodeObj]
        rw [parseVal.eq_def]
        simp
      | .obj (.cons k w o') =>
        have hso : jsizeO (JsObj.cons k w o') ≤ f := by
          simp [jsizeV, jsizeO] at hsz ⊢
          omega
        rw [encodeVal]
        have hshape : ('{' :: encodeObj (.cons k w o') ++ ['}']) ++ rest
            = '{' :: (encodeObj (.cons k w o') ++ '}' :: rest) := by
          simp
        rw [hshape, parseVal.eq_def]
        have hobj : encodeObj (.cons k w o') ++ '}' :: rest
            = '"' :: (escapeList k.data
                ++ ('"' :: (':' :: (encodeVal w ++ (objSep o' ++ '}' :: rest))))) := by
          rw [encodeObj, encodeStr]
          simp
        rw [hobj]
        simp only [reduceIte, reduceCtorEq]
        rw [← hobj]
        rw [ihO _ rest hso (by simp)]
        rfl
    · intro a rest hsz hne
      match a with
      | .nil => exact absurd rfl hne
      | .cons w a' =>
        rw [encodeArr, parseArr.eq_def]
        simp only [List.append_assoc]
        have hhead : headOkB (arrSep a' ++ ']' :: rest) = true := by
          cases a' <;> simp [arrSep, headOkB, isDigitChar]
        have hsw : jsizeV w ≤ f := by
          simp [jsizeA] at hsz
          omega
        rw [ihV w _ hsw hhead]
        cases a' with
        | nil =>
          simp [arrSep]
        | cons u a'' =>
          have hsu : jsizeA (JsArr.cons u a'') ≤ f := by
            simp [jsizeA] at hsz ⊢
            omega
          simp only [arrSep, List.cons_append, Option.some_bind]
          have hrw : encodeVal u ++ (arrSep a'' ++ ']' :: rest)
              = encodeArr (.cons u a'') ++ ']' :: rest := by
            rw [encodeArr]
            simp
          simp only [reduceIte]
          simp only [List.append_assoc] at hrw ⊢
          rw [hrw, ihA _ rest hsu (by simp)]
          rfl
    · intro o rest hsz hne
      match o with
      | .nil => exact absurd rfl hne
      | .cons k w o' =>
        rw [encodeObj, encodeStr, parseObj.eq_def]
        simp only [List.cons_append, List.append_assoc, List.nil_append]
        have hhead : headOkB (objSep o' ++ '}' :: rest) = true := by
          cases o' <;> simp [objSep, headOkB, isDigitChar]
        have hsw : jsizeV w ≤ f := by
          simp [jsizeO] at hsz
          omega
        simp only [reduceIte]
        rw [parseStrBody_escape k.data]
        simp only [Option.some_bind, reduceIte]
        rw [ihV w _ hsw hhead]
        cases o' with
        | nil =>
          simp [objSep, stringMk_data]
        | cons k2 w2 o'' =>
          have hsu : jsizeO (JsObj.cons k2 w2 o'') ≤ f := by
            simp [jsizeO] at hsz ⊢
            omega
          simp only [objSep, List.cons_append, Option.some_bind, reduceIte]
          have hrw : encodeStr k2 ++ (':' :: (encodeVal w2 ++ objSep o'') ++ '}' :: rest)
              = encodeObj (.cons k2 w2 o'') ++ '}' :: rest := by
            rw [encodeObj]
            simp
          simp only [List.append_assoc] at hrw ⊢
          rw [hrw, ihO _ rest hsu (by simp)]
          simp [consObjRes, stringMk_data]

/-- `JSON.parse` inverts `JSON.stringify` on every modelled value:
the serialization used by the self-hosted cache provider round-trips. -/
theorem jsonParse_stringify (v : JsValue) : jsonParse (jsonStringify v) = some v := by
  have hsz : jsizeV v ≤ (encodeVal v).length := (sizes_le (jsizeV v)).1 v le_rfl
  have hdata : (jsonStringify v).data = encodeVal v := rfl
  have h := (parse_encode ((jsonStringify v).data.length + 1)).1 v []
    (by rw [hdata]; omega) rfl
  rw [List.append_nil] at h
  rw [jsonParse, hdata] at *
  rw [h]
  rfl

/-! ## The Redis backend model

One keyspace, as in Redis: every key holds a string, a set, or a
hash.  Commands on a key of the wrong type fail with a `WRONGTYPE`
error; `INCR`/`HINCRBY` fail when the stored string is not a strict
decimal integer (Redis `string2ll`).  TTLs are recorded but not
modelled further: every claim about reads concerns reads before
expiry.  Set-member order is modelled as insertion order (Redis sets
are unordered; no claim depends on the order). -/

/-- A Redis value: string, set, or hash. -/
inductive RedisObj where
  | str (s : String) : RedisObj
  | set (members : List String) : RedisObj
  | hash (fields : List (String × String)) : RedisObj

/-- The keyspace: an insertion-ordered association list. -/
def Store := List (String × RedisObj)

/-- Association-list lookup. -/
def slookup {α : Type} : List (String × α) → String → Option α
  | [], _ => none
  | (k, v) :: t, key => if k = key then some v else slookup t key

/-- Association-list update: overwrite in place, else append. -/
def supdate {α : Type} : List (String × α) → String → α → List (String × α)
  | [], key, v => [(key, v)]
  | (k, w) :: t, key, v =>
    if k = key then (key, v) :: t else (k, w) :: supdate t key v

/-- Association-list removal of a key. -/
def sremove {α : Type} : List (String × α) → String → List (String × α)
  | [], _ => []
  | (k, w) :: t, key => if k = key then sremove t key else (k, w) :: sremove t key

/-- Strict decimal natural parsing as in Redis `string2ll`: non-empty,
all digits, no leading zero except for `0` itself. -/
def parseRedisNat : List Char → Option Nat
  | [] => none
  | c :: cs =>
    if c = '0' then (if cs = [] then some 0 else none)
    else if (c :: cs).all isDigitChar then some (List.foldl digitStep 0 (c :: cs))
    else none

/-- Strict decimal integer parsing as in Redis `string2ll` (64-bit
range checks omitted; no claim involves counter overflow). -/
def parseRedisInt (s : String) : Option Int :=
  match s.data with
  | [] => none
  | c :: cs =>
    if c = '-' then (parseRedisNat cs).map (fun n => -(n : Int))
    else (parseRedisNat (c :: cs)).map (fun n => (n : Int))

/-- Decimal rendering of an integer, as Redis stores counters. -/
def intRepr (n : Int) : String := String.mk (encodeInt n)

/-- The backend as the provider sees it: reachable with a keyspace, or
unreachable (every command errors: refused connections, timeouts). -/
inductive Backend where
  | up (st : Store) : Backend
  | down : Backend

/-- Errors a single Redis command can produce in this model. -/
inductive RErr where
  | wrongType : RErr
  | notInt : RErr
  | conn : RErr

/-- Raw reply of a single Redis command. -/
inductive RVal where
  | ok : RVal
  | int (n : Int) : RVal
  | map (fields : List (String × String)) : RVal

/-- The commands the TypeScript pipeline wrapper can queue, at the
Redis level: values are already serialized strings. -/
inductive PipeCmd where
  | setex (key : String) (ttl : Int) (value : String) : PipeCmd
  | sadd (key : String) (members : List String) : PipeCmd
  | hset (key : String) (fields : List (String × String)) : PipeCmd
  | hincrby (key : String) (field : String) (increment : Int) : PipeCmd
  | incr (key : String) : PipeCmd
  | hgetall (key : String) : PipeCmd

/-- `SADD`: append members not already present; count the additions. -/
def saddList : List String → List String → List String × Nat
  | s, [] => (s, 0)
  | s, m :: rest =>
    if s.contains m then saddList s rest
    else
      let p := saddList (s ++ [m]) rest
      (p.1, p.2 + 1)

/-- `HSET` with several fields: overwrite each in order; count the
newly created fields. -/
def hsetGo : List (String × String) → List (String × String) → List (String × String) × Nat
  | h, [] => (h, 0)
  | h, (f, v) :: rest =>
    let isNew : Bool := (slookup h f).isNone
    let p := hsetGo (supdate h f v) rest
    (p.1, p.2 + (if isNew then 1 else 0))

/-- Execute one command against a reachable keyspace: the Redis
semantics of SETEX/SADD/HSET/HINCRBY/INCR/HGETALL, with `WRONGTYPE`
and not-an-integer errors.  A failed command leaves the keyspace
unchanged. -/
def execCmd (st : Store) : PipeCmd → Except RErr RVal × Store
  | .setex key _ value => (.ok .ok, supdate st key (.str value))
  | .sadd key ms =>
    match slookup st key with
    | none =>
      let p := saddList [] ms
      (.ok (.int p.2), supdate st key (.set p.1))
    | some (.set s) =>
      let p := saddList s ms
      (.ok (.int p.2), supdate st key (.set p.1))
    | some _ => (.error .wrongType, st)
  | .hset key fields =>
    match slookup st key with
    | none =>
      let p := hsetGo [] fields
      (.ok (.int p.2), supdate st key (.hash p.1))
    | some (.hash h) =>
      let p := hsetGo h fields
      (.ok (.int p.2), supdate st key (.hash p.1))
    | some _ => (.error .wrongType, st)
  | .hincrby key field inc =>
    match slookup st key with
    | none => (.ok (.int inc), supdate st key (.hash [(field, intRepr inc)]))
    | some (.hash h) =>
      match slookup h field with
      | none => (.ok (.int inc), supdate st key (.hash (supdate h field (intRepr inc))))
      | some s =>
        match parseRedisInt s with
        | some n =>
          (.ok (.int (n + inc)), supdate st key (.hash (supdate h field (intRepr (n + inc)))))
        | none => (.error .notInt, st)
    | some _ => (.error .wrongType, st)
  | .incr key =>
    match slookup st key with
    | none => (.ok (.int 1), supdate st key (.str (intRepr 1)))
    | some (.str s) =>
      match parseRedisInt s with
      | some n => (.ok (.int (n + 1)), supdate st key (.str (intRepr (n + 1))))
      | none => (.error .notInt, st)
    | some _ => (.error .wrongType, st)
  | .hgetall key =>
    match slookup st key with
    | none => (.ok (.map []), st)
    | some (.hash h) => (.ok (.map h), st)
    | some _ => (.error .wrongType, st)

/-- Run a queued batch in submission order, collecting each command's
reply; later commands run even if earlier ones failed (an ioredis
pipeline is not a transaction). -/
def pipeExecRaw (st : Store) : List PipeCmd → List (Except RErr RVal) × Store
  | [] => ([], st)
  | cmd :: rest =>
    let r := execCmd st cmd
    let p := pipeExecRaw r.2 rest
    (r.1 :: p.1, p.2)

/-! ## The `RedisProvider` methods (redis-provider.ts)

Every public method wraps its backend call in `try`/`catch` and
degrades to `null`/`false`/`0`/`[]`/`{}` — except the pipeline's
`exec`, which has no `try`/`catch` and rethrows both a rejected
`pipe.exec()` and any per-command error (`if (err) throw err`).

`get` returns the JavaScript value `null` both on a miss, on a parse
failure, and on a backend failure; since `JSON.parse` can itself
produce `null`, the return type is `JsValue` with `JsValue.null`
standing for the JavaScript `null` in all these cases, exactly as the
caller observes it. -/

/-- A JSON-parse-or-raw-string of a stored hash value, as `hgetall`
and the pipeline's `exec` apply it (`try JSON.parse catch keep raw`). -/
def parseHashValue (v : String) : JsValue :=
  match jsonParse v with
  | some j => j
  | none => .str v

/-- Parse every value of a raw hash reply. -/
def parseHash (h : List (String × String)) : List (String × JsValue) :=
  h.map (fun kv => (kv.1, parseHashValue kv.2))

/-- A pipeline result after the provider's JSON post-processing. -/
inductive PRVal where
  | ok : PRVal
  | int (n : Int) : PRVal
  | map (fields : List (String × JsValue)) : PRVal

/-- Post-process one raw reply as `exec` does: hash replies (objects)
get their values JSON-parsed, other replies pass through. -/
def parseRVal : RVal → PRVal
  | .ok => .ok
  | .int n => .int n
  | .map h => .map (parseHash h)

/-- Prepend a parsed result unless an error already occurred. -/
def consPR (v : PRVal) : Except RErr (List PRVal) → Except RErr (List PRVal)
  | .ok l => .ok (v :: l)
  | .error e => .error e

/-- The `results.map(([err, result]) => { if (err) throw err; ... })`
loop of `Pipeline.exec`: the first per-command error is thrown,
otherwise every result is post-processed. -/
def mapExecResults : List (Except RErr RVal) → Except RErr (List PRVal)
  | [] => .ok []
  | .error e :: _ => .error e
  | .ok r :: rest => consPR (parseRVal r) (mapExecResults rest)

namespace RedisProvider

/-- `get`: fetch and `JSON.parse`; miss, parse failure, wrong type and
backend failure all surface as the JavaScript `null`. -/
def get (b : Backend) (key : String) : JsValue :=
  match b with
  | .down => .null
  | .up st =>
    match slookup st key with
    | none => .null
    | some (.str s) =>
      match jsonParse s with
      | some v => v
      | none => .null
    | some _ => .null

/-- `setex`: `JSON.stringify` the value and store it (the TTL is
recorded by Redis; reads in the claims happen before expiry).  Backend
failures are swallowed. -/
def setex (b : Backend) (key : String) (_ttl : Int) (v : JsValue) : Backend :=
  match b with
  | .down => .down
  | .up st => .up (supdate st key (.str (jsonStringify v)))

/-- `set`: like `setex` (with or without TTL); failures swallowed. -/
def set (b : Backend) (key : String) (v : JsValue) (_ttl : Option Int) : Backend :=
  match b with
  | .down => .down
  | .up st => .up (supdate st key (.str (jsonStringify v)))

/-- `del`: remove the key; failures swallowed. -/
def del (b : Backend) (key : String) : Backend :=
  match b with
  | .down => .down
  | .up st => .up (sremove st key)

/-- `exists`: `EXISTS === 1`; `false` on backend failure. -/
def rexists (b : Backend) (key : String) : Bool :=
  match b with
  | .down => false
  | .up st => (slookup st key).isSome

/-- `ping`: `PING === "PONG"`; `false` on backend failure. -/
def ping (b : Backend) : Bool :=
  match b with
  | .down => false
  | .up _ => true

/-- `sadd`: number of members added; `0` on any failure. -/
def sadd (b : Backend) (key : String) (members : List String) : Int × Backend :=
  match b with
  | .down => (0, .down)
  | .up st =>
    let r := execCmd st (.sadd key members)
    match r.1 with
    | .ok (.int n) => (n, .up r.2)
    | _ => (0, .up r.2)

/-- `smembers`: the member list; `[]` on any failure. -/
def smembers (b : Backend) (key : String) : List String :=
  match b with
  | .down => []
  | .up st =>
    match slookup st key with
    | some (.set s) => s
    | _ => []

/-- `scard`: the member count; `0` on any failure. -/
def scard (b : Backend) (key : String) : Int :=
  match b with
  | .down => 0
  | .up st =>
    match slookup st key with
    | some (.set s) => (s.length : Int)
    | _ => 0

/-- `hset` (single field or field map): `JSON.stringify` every value,
then `HSET`; failures swallowed. -/
def hset (b : Backend) (key : String) (fields : List (String × JsValue)) : Backend :=
  match b with
  | .down => .down
  | .up st =>
    let r := execCmd st (.hset key (fields.map (fun kv => (kv.1, jsonStringify kv.2))))
    .up r.2

/-- `hgetall`: the hash with JSON-parsed values; `{}` (the empty map)
on a miss or any failure. -/
def hgetall (b : Backend) (key : String) : List (String × JsValue) :=
  match b with
  | .down => []
  | .up st =>
    match slookup st key with
    | some (.hash h) => parseHash h
    | _ => []

/-- `hincrby`: the new counter value; `0` on any failure. -/
def hincrby (b : Backend) (key : String) (field : String) (inc : Int) : Int × Backend :=
  match b with
  | .down => (0, .down)
  | .up st =>
    let r := execCmd st (.hincrby key field inc)
    match r.1 with
    | .ok (.int n) => (n, .up r.2)
    | _ => (0, .up r.2)

/-- `incr`: the new counter value; `0` on any failure. -/
def incr (b : Backend) (key : String) : Int × Backend :=
  match b with
  | .down => (0, .down)
  | .up st =>
    let r := execCmd st (.incr key)
    match r.1 with
    | .ok (.int n) => (n, .up r.2)
    | _ => (0, .up r.2)

/-- Redis `KEYS` glob matching (`*`, `?`, literals), with fuel that
always suffices since each step shrinks pattern or subject. -/
def globGo : Nat → List Char → List Char → Bool
  | 0, _, _ => false
  | fuel + 1, p, s =>
    match p with
    | [] => s.isEmpty
    | pc :: pt =>
      if pc = '*' then
        match s with
        | [] => globGo fuel pt []
        | _ :: st => globGo fuel pt s || globGo fuel (pc :: pt) st
      else
        match s with
        | [] => false
        | c :: st => (pc = '?' || pc = c) && globGo fuel pt st

/-- `KEYS pattern`: all keys matching the glob; `[]` on failure. -/
def keys (b : Backend) (pattern : String) : List String :=
  match b with
  | .down => []
  | .up st =>
    (st.map (fun kv => kv.1)).filter
      (fun k => globGo (pattern.data.length + k.data.length + 1) pattern.data k.data)

end RedisProvider

/-- The pipeline's `exec`: rejects when the backend is unreachable
(`pipe.exec()` rejects) and rethrows the first per-command error; on
success, returns the post-processed results in submission order.
This is the one public entry point of the provider without a
`try`/`catch`. -/
def Pipeline.exec (b : Backend) (cmds : List PipeCmd) : Except RErr (List PRVal) × Backend :=
  match b with
  | .down => (.error .conn, .down)
  | .up st =>
    let p := pipeExecRaw st cmds
    (mapExecResults p.1, .up p.2)

/-- The TypeScript pipeline's `setex`: serializes before queueing. -/
def pipeSetex (key : String) (ttl : Int) (v : JsValue) : PipeCmd :=
  .setex key ttl (jsonStringify v)

/-- The TypeScript pipeline's `hset`: serializes every value before
queueing. -/
def pipeHset (key : String) (fields : List (String × JsValue)) : PipeCmd :=
  .hset key (fields.map (fun kv => (kv.1, jsonStringify kv.2)))

/-! ## JavaScript coercions used by the analytics module -/

/-- JavaScript truthiness on the modelled values (`0`, `""`, `null`,
`false` are falsy; every array and object is truthy). -/
def jsTruthy : JsValue → Bool
  | .null => false
  | .bool b => b
  | .num n => !(n = 0)
  | .str s => !(s = "")
  | .arr _ => true
  | .obj _ => true

/-- `v || d` on values. -/
def jsOrV (v d : JsValue) : JsValue := if jsTruthy v then v else d

/-- `s || d` on an optional string (`undefined` and `""` are falsy). -/
def jsStrOr (o : Option String) (d : String) : String :=
  match o with
  | none => d
  | some s => if s = "" then d else s

/-- Is an optional string truthy? -/
def strTruthy (o : Option String) : Bool :=
  match o with
  | none => false
  | some s => !(s = "")

mutual

/-- JavaScript `String(x)` on the modelled values (used for object
property keys and for `parseInt(String(...))`). -/
def jsToString : JsValue → String
  | .null => "null"
  | .bool true => "true"
  | .bool false => "false"
  | .num n => intRepr n
  | .str s => s
  | .arr a => String.mk (jsArrChars a)
  | .obj _ => "[object Object]"

/-- `Array.prototype.toString`: elements joined by commas, with
`null` rendered as the empty string. -/
def jsArrChars : JsArr → List Char
  | .nil => []
  | .cons v .nil =>
    (match v with
     | .null => []
     | _ => (jsToString v).data)
  | .cons v (.cons w rest) =>
    (match v with
     | .null => []
     | _ => (jsToString v).data) ++ ',' :: jsArrChars (.cons w rest)

end

/-- JavaScript whitespace recognized by `parseInt` and `trim`
(ASCII fragment). -/
def isJsWs (c : Char) : Bool :=
  c = ' ' || c = '\x09' || c = '\x0a' || c = '\x0d' || c = '\x0b' || c = '\x0c'

/-- Parse a run of hexadecimal digits, accumulating into `acc`. -/
def parseHexDigits (acc : Nat) : List Char → Nat
  | [] => acc
  | c :: cs => if isHexDigit c then parseHexDigits (acc * 16 + hexVal c) cs else acc

/-- The digits part of JavaScript `parseInt` with no explicit radix:
an optional `0x` prefix switches to hexadecimal; otherwise the longest
decimal-digit prefix; `none` is `NaN`. -/
def jsParseIntAbs : List Char → Option Nat
  | c :: x :: rest =>
    if c = '0' && (x = 'x' || x = 'X') then
      match rest with
      | d :: _ => if isHexDigit d then some (parseHexDigits 0 rest) else none
      | [] => none
    else if isDigitChar c then some (parseDigits (digitVal c) (x :: rest)).1
    else none
  | [c] => if isDigitChar c then some (digitVal c) else none
  | [] => none

/-- JavaScript `parseInt(s)`: leading whitespace, optional sign,
digits; `none` is `NaN`. -/
def jsParseInt (s : String) : Option Int :=
  match s.data.dropWhile isJsWs with
  | '-' :: rest => (jsParseIntAbs rest).map (fun n => -(n : Int))
  | '+' :: rest => (jsParseIntAbs rest).map (fun n => (n : Int))
  | rest => (jsParseIntAbs rest).map (fun n => (n : Int))

/-! ## The analytics module -/

/-- The reconstructed per-visitor record.  `country` and `device` are
declared as strings in the source but can hold any parsed JSON value
at runtime, so they are modelled as values. -/
structure VisitorData where
  id : String
  country : JsValue
  device : JsValue
  lastSeen : Int
  queryCount : Int
  firstSeen : Int
deriving DecidableEq

/-- The aggregated dashboard snapshot.  `totalQueries` flows directly
from `cache.get` and is modelled as the value the caller observes. -/
structure AnalyticsData where
  totalVisitors : Int
  totalQueries : JsValue
  activeUsers24h : Int
  deviceStats : List (String × Int)
  countryStats : List (String × Int)
  recentVisitors : List VisitorData
deriving DecidableEq

/-- The two event kinds `trackEvent` accepts. -/
inductive EventType where
  | query : EventType
  | visit : EventType

/-- The write-once static `hset` of `trackEvent`: `firstSeen`,
`country`, `device` and `userAgent` with their falsy fallbacks. -/
def trackStatic (visitorKey : String) (country device userAgent : Option String)
    (timestamp : Int) : PipeCmd :=
  pipeHset visitorKey
    [("firstSeen", .num timestamp),
     ("country", .str (jsStrOr country "Unknown")),
     ("device", .str (jsStrOr device "unknown")),
     ("userAgent", .str (jsStrOr userAgent ""))]

/-- The always-overwrite dynamic `hset` of `trackEvent`: `lastSeen`
plus `country`/`device` when truthy. -/
def trackDyn (visitorKey : String) (country device : Option String)
    (timestamp : Int) : PipeCmd :=
  pipeHset visitorKey
    ([("lastSeen", JsValue.num timestamp)]
     ++ (if strTruthy country then [("country", JsValue.str (country.getD ""))] else [])
     ++ (if strTruthy device then [("device", JsValue.str (device.getD ""))] else []))

/-- The query-counter commands of `trackEvent`, queued only for query
events. -/
def trackQ (visitorKey : String) (eventType : EventType) : List PipeCmd :=
  match eventType with
  | .query => [PipeCmd.incr ("queries:total"), PipeCmd.hincrby visitorKey ("queryCount") 1]
  | .visit => []

/-- The trailing counter commands of `trackEvent`: the query counters
when the event is a query, plus per-country/per-device counters. -/
def trackTail (visitorKey : String) (eventType : EventType)
    (country device : Option String) : List PipeCmd :=
  trackQ visitorKey eventType
  ++ (if strTruthy country then [PipeCmd.incr ("stats:country:" ++ country.getD "")] else [])
  ++ (if strTruthy device then [PipeCmd.incr ("stats:device:" ++ device.getD "")] else [])

/-- The full command batch of `trackEvent`, given the result of the
pre-pipeline existence check. -/
def trackCmds (present : Bool) (visitorId : String) (eventType : EventType)
    (country device userAgent : Option String) (timestamp : Int) : List PipeCmd :=
  [PipeCmd.sadd ("visitors") [visitorId]]
  ++ (if present then [] else
      [trackStatic ("visitor:" ++ visitorId) country device userAgent timestamp])
  ++ [trackDyn ("visitor:" ++ visitorId) country device timestamp]
  ++ trackTail ("visitor:" ++ visitorId) eventType country device

/-- `trackEvent(visitorId, eventType, metadata)`: one pipelined batch
— add to the visitor set; write-once static fields guarded by an
existence check done before the pipeline runs; always-overwrite
dynamic fields (country/device only when truthy); conditional query
counters; conditional per-country/per-device counters.  The `catch`
swallows any pipeline rejection, so the result is whatever state the
executed commands produced. -/
def trackEvent (b : Backend) (visitorId : String) (eventType : EventType)
    (country device userAgent : Option String) (timestamp : Int) : Backend :=
  let visitorKey := "visitor:" ++ visitorId
  let ex := RedisProvider.rexists b visitorKey
  (Pipeline.exec b (trackCmds ex visitorId eventType country device userAgent timestamp)).2

/-- `typeof x === 'number' ? x : parseInt(String(x || Date.now())) ||
Date.now()` — the timestamp coercion in `getAnalyticsData`. -/
def coerceTime (x : Option JsValue) (now : Int) : Int :=
  match x with
  | some (.num n) => n
  | _ =>
    let base : JsValue :=
      match x with
      | some v => if jsTruthy v then v else .num now
      | none => .num now
    match jsParseInt (jsToString base) with
    | some m => if m = 0 then now else m
    | none => now

/-- `typeof x === 'number' ? x : parseInt(String(x || 0)) || 0` — the
query-count coercion in `getAnalyticsData`. -/
def coerceCount (x : Option JsValue) : Int :=
  match x with
  | some (.num n) => n
  | _ =>
    let base : JsValue :=
      match x with
      | some v => if jsTruthy v then v else .num 0
      | none => .num 0
    match jsParseInt (jsToString base) with
    | some m => m
    | none => 0

/-- Reconstruct one `VisitorData` from a parsed hash reply. -/
def buildVisitor (id : String) (fields : List (String × JsValue)) (now : Int) : VisitorData :=
  ⟨id,
   (match slookup fields "country" with
    | some v => jsOrV v (.str "Unknown")
    | none => .str "Unknown"),
   (match slookup fields "device" with
    | some v => jsOrV v (.str "unknown")
    | none => .str "unknown"),
   coerceTime (slookup fields "lastSeen") now,
   coerceCount (slookup fields "queryCount"),
   coerceTime (slookup fields "firstSeen") now⟩

/-- `stats[k] = (stats[k] || 0) + 1` on a JavaScript object used as a
counter map (insertion-ordered). -/
def statsUpdate (stats : List (String × Int)) (key : String) : List (String × Int) :=
  match slookup stats key with
  | some n => supdate stats key (n + 1)
  | none => supdate stats key 1

/-- The fields of a pipeline reply as the analytics loop accesses
them (hash replies carry fields; anything else reads as empty). -/
def prFields : PRVal → List (String × JsValue)
  | .map fs => fs
  | _ => []

/-- Accumulator of the `visitorsDetails.forEach` loop. -/
structure FoldState where
  recent : List VisitorData
  active : Int
  dev : List (String × Int)
  ctry : List (String × Int)

/-- The `visitorsDetails.forEach` loop: skip falsy ids (a parsed hash
is always a truthy object), rebuild each visitor, count 24h-active
visitors, and rebuild both histograms. -/
def analyticsFold (now : Int) : List (String × PRVal) → FoldState → FoldState
  | [], st => st
  | (id, r) :: rest, st =>
    if id = "" then analyticsFold now rest st
    else
      let v := buildVisitor id (prFields r) now
      analyticsFold now rest
        ⟨st.recent ++ [v],
         st.active + (if v.lastSeen > now - 86400000 then 1 else 0),
         statsUpdate st.dev (jsToString (jsOrV v.device (.str "unknown"))),
         statsUpdate st.ctry (jsToString (jsOrV v.country (.str "Unknown")))⟩

/-- `getAnalyticsData()`: read the visitor count, the query counter
and the id set; for an empty id set return the short-circuit snapshot
(note `totalQueries: totalQueries || 0` — the stored counter, not a
constant); otherwise pipeline one `hgetall` per id, rebuild the
records and aggregate.  A thrown pipeline error lands in the `catch`
with the all-zero snapshot.  `now` stands for `Date.now()`. -/
def getAnalyticsData (b : Backend) (now : Int) : AnalyticsData :=
  let totalVisitors := RedisProvider.scard b "visitors"
  let totalQueries := RedisProvider.get b "queries:total"
  let visitorIds := RedisProvider.smembers b "visitors"
  if visitorIds = [] then
    ⟨0, jsOrV totalQueries (.num 0), 0, [], [], []⟩
  else
    match (Pipeline.exec b (visitorIds.map (fun id => PipeCmd.hgetall ("visitor:" ++ id)))).1 with
    | .error _ => ⟨0, .num 0, 0, [], [], []⟩
    | .ok results =>
      let st := analyticsFold now (visitorIds.zip results)
        ⟨[], 0, [("mobile", 0), ("desktop", 0), ("unknown", 0)], []⟩
      ⟨totalVisitors,
       jsOrV totalQueries (.num 0),
       st.active,
       st.dev,
       st.ctry,
       List.mergeSort st.recent (fun a b => decide (b.lastSeen ≤ a.lastSeen))⟩

/-! ## String containment (JavaScript `String.prototype.includes`) -/

/-- Substring containment on character lists. -/
def listContains (s sub : List Char) : Bool :=
  match s with
  | [] => sub.isEmpty
  | c :: t => sub.isPrefixOf (c :: t) || listContains t sub

/-- `url.includes(sub)`. -/
def includes (s sub : String) : Bool := listContains s.data sub.data

/-- ASCII lower-casing of one character, as both
`String.prototype.toLowerCase` and the WHATWG URL host parser apply it
to the ASCII range. -/
def jsCharLower (c : Char) : Char :=
  if 'A' ≤ c && c ≤ 'Z' then Char.ofNat (c.toNat + 32) else c

/-- ASCII lower-casing of a character list. -/
def lowerChars (l : List Char) : List Char := l.map jsCharLower

/-- `String.prototype.toLowerCase` (ASCII fragment). -/
def jsToLowerCase (s : String) : String := String.mk (lowerChars s.data)

/-! ## Cluster detection and construction (redis-provider.ts) -/

/-- The `hostname` of `new URL(url startsWith "redis://" ? url :
"redis://" + url)`, approximated by WHATWG authority extraction: the
text after the scheme up to the first `/`, `?` or `#`, stripped of
userinfo (after the last `@`) and port (before the first `:`), and
lower-cased by the URL parser.  Where the real parser would throw, the
TypeScript `catch` treats the URL as standalone; the extraction below
never yields a hostname containing `cluster` unless the connection
string itself contains it, which is all the claims rely on. -/
def extractHostname (url : String) : List Char :=
  let s := if ("redis://".data).isPrefixOf url.data then url.data.drop 8 else url.data
  let auth := s.takeWhile (fun c => !(c = '/' || c = '?' || c = '#'))
  let host := (auth.reverse.takeWhile (fun c => !(c = '@'))).reverse
  host.takeWhile (fun c => !(c = ':'))

/-- `isClusterConnection`: the explicit flag (`cluster=true` or
`?cluster` anywhere in the string), or a comma (multiple hosts), or a
hostname containing `cluster`. -/
def isClusterConnection (url : String) : Bool :=
  if listContains url.data ("cluster=true".data)
      || listContains url.data ("?cluster".data) then true
  else if listContains url.data [','] then true
  else listContains (lowerChars (extractHostname url)) ("cluster".data)

/-- The observable connection mode of the constructed client. -/
inductive ClientMode where
  | cluster : ClientMode
  | standalone : ClientMode

/-- The `RedisProvider` constructor: throws when the connection string
is missing or empty (`!redisUrl`), otherwise constructs a cluster or a
standalone client according to `isClusterConnection`. -/
def RedisProvider.init (redisUrl : Option String) : Except String ClientMode :=
  match redisUrl with
  | none => .error "REDIS_URL environment variable is not set"
  | some u =>
    if u = "" then .error "REDIS_URL environment variable is not set"
    else .ok (if isClusterConnection u then .cluster else .standalone)

/-! ## The caching helpers (cache.ts) -/

/-- A JSON array of strings (the cached file-selection list). -/
def strArr : List String → JsArr
  | [] => .nil
  | s :: rest => .cons (.str s) (strArr rest)

/-- `trim()` (ASCII-whitespace fragment of the JavaScript semantics). -/
def jsTrim (s : String) : String :=
  String.mk (((s.data.dropWhile isJsWs).reverse.dropWhile isJsWs).reverse)

/-- The query normalization of `cacheQuerySelection` and
`getCachedQuerySelection`: `query.toLowerCase().trim()`. -/
def normalizeQuery (query : String) : String := jsTrim (jsToLowerCase query)

/-- The cache key both helpers construct. -/
def querySelectionKey (owner repo query : String) : String :=
  "query:" ++ owner ++ "/" ++ repo ++ ":" ++ normalizeQuery query

/-- `cacheQuerySelection`: store the selected file list for 24 hours
under the normalized key (the `safeCacheOperation` guard only swallows
exceptions, which the provider methods never raise). -/
def cacheQuerySelection (b : Backend) (owner repo query : String) (files : List String) : Backend :=
  RedisProvider.setex b (querySelectionKey owner repo query) 86400 (.arr (strArr files))

/-- `getCachedQuerySelection`: read back under the normalized key. -/
def getCachedQuerySelection (b : Backend) (owner repo query : String) : JsValue :=
  RedisProvider.get b (querySelectionKey owner repo query)

/-! ## The AI-provider factory (the cluster-aware variant) and the
fail-fast provider constructors -/

/-- The four backends the factory can select. -/
inductive AIBackend where
  | cluster : AIBackend
  | gemini : AIBackend
  | openai : AIBackend
  | anthropic : AIBackend

/-- `process.env.CLUSTER_AI_ENABLED?.toLowerCase() === "true"`. -/
def clusterFlagSet (clusterEnabled : Option String) : Bool :=
  match clusterEnabled with
  | some s => jsToLowerCase s = "true"
  | none => false

/-- `process.env.AI_PROVIDER?.toLowerCase() || "gemini"`. -/
def providerName (aiProvider : Option String) : String :=
  match aiProvider with
  | none => "gemini"
  | some p => if jsToLowerCase p = "" then "gemini" else jsToLowerCase p

/-- `createAIProvider()`: the cluster flag or a cluster provider name
selects the cluster backend; otherwise the named provider (lower-
cased, defaulting to `gemini` when unset or empty); an unrecognized
name falls back to Gemini with a console warning (the returned flag)
instead of throwing. -/
def createAIProvider (clusterEnabled aiProvider : Option String) : AIBackend × Bool :=
  let clusterAIEnabled := clusterFlagSet clusterEnabled
  let provider := providerName aiProvider
  let isClusterAIProvider := provider = "cluster-ai" || provider = "cluster-mcp"
  if clusterAIEnabled || isClusterAIProvider then (.cluster, false)
  else if provider = "gemini" then (.gemini, false)
  else if provider = "openai" || provider = "openai-compatible" then (.openai, false)
  else if provider = "anthropic" then (.anthropic, false)
  else (.gemini, true)

/-- The constructed OpenAI client state (API key validated). -/
structure OpenAIProviderState where
  apiKey : String
  baseURL : Option String
  defaultModel : String

/-- The `OpenAIProvider` constructor: `if (!apiKey) throw` — an empty
key fails fast before any client is built, so `generateContent` and
friends can only run on a state holding a non-empty key. -/
def OpenAIProvider.mk? (apiKey : String) (baseURL : Option String)
    (defaultModel : String) : Except String OpenAIProviderState :=
  if apiKey = "" then .error "OPENAI_API_KEY environment variable is not set"
  else .ok ⟨apiKey, baseURL, defaultModel⟩

/-- The constructed Anthropic client state. -/
structure AnthropicProviderState where
  apiKey : String
  defaultModel : String

/-- The `AnthropicProvider` constructor: `if (!apiKey) throw`. -/
def AnthropicProvider.mk? (apiKey : String)
    (defaultModel : String) : Except String AnthropicProviderState :=
  if apiKey = "" then .error "ANTHROPIC_API_KEY environment variable is not set"
  else .ok ⟨apiKey, defaultModel⟩

/-- The constructed Gemini client state. -/
structure GeminiProviderState where
  apiKey : String
  defaultModel : String

/-- The `GeminiProvider` constructor (the second document of
src/src/lib/ai-provider/openai-provider.ts): `if (!apiKey) throw new
Error("GEMINI_API_KEY environment variable is not set")` — an empty
key fails fast before the Google client is built. -/
def GeminiProvider.mk? (apiKey : String)
    (defaultModel : String) : Except String GeminiProviderState :=
  if apiKey = "" then .error "GEMINI_API_KEY environment variable is not set"
  else .ok ⟨apiKey, defaultModel⟩

/-! ## Association-list lemmas -/

/-- Looking up the key just written. -/
theorem slookup_supdate_self {α : Type} (m : List (String × α)) (k : String) (v : α) :
    slookup (supdate m k v) k = some v := by
  induction m with
  | nil => simp [supdate, slookup]
  | cons p t ih =>
    by_cases h : p.1 = k
    · simp [supdate, h, slookup]
    · simp [supdate, h, slookup, ih]

/-- Writing one key leaves every other key's binding unchanged. -/
theorem slookup_supdate_ne {α : Type} (m : List (String × α)) (k k' : String) (v : α)
    (h : k ≠ k') : slookup (supdate m k v) k' = slookup m k' := by
  induction m with
  | nil => simp [supdate, slookup, h]
  | cons p t ih =>
    by_cases hp : p.1 = k
    · simp [supdate, hp, slookup, h]
    · simp [supdate, hp, slookup, ih]

/-- A provider write followed by a read of the same key returns the
value: the JSON round-trip through the stored string. -/
theorem get_after_setex (st : Store) (key : String) (ttl : Int) (v : JsValue) :
    RedisProvider.get (RedisProvider.setex (Backend.up st) key ttl v) key = v := by
  simp only [RedisProvider.setex, RedisProvider.get, slookup_supdate_self]
  rw [jsonParse_stringify]

/-! ## Claim theorems -/

/-- C4: for every key, TTL and modelled JSON value `v`, `setex(key,
ttl, v)` followed by `get(key)` (backend available, before expiry)
returns a value equal to `v`: the provider's serialization —
`JSON.stringify` on write, `JSON.parse` on read — round-trips every
stored value. -/
theorem C4_setex_get_roundtrip (st : Store) (key : String) (ttl : Int) (v : JsValue) :
    RedisProvider.get (RedisProvider.setex (Backend.up st) key ttl v) key = v ∧
    jsonParse (jsonStringify v) = some v :=
  ⟨get_after_setex st key ttl v, jsonParse_stringify v⟩

/-- C10: storing `null` and reading it back yields the JavaScript
`null` — the same result as reading a key that was never stored, and
the same result as reading from an unreachable backend — so a caller
cannot distinguish a cached `null` from a cache miss or a backend
failure through `get`. -/
theorem C10_cached_null_is_miss :
    (∀ (st : Store) (key : String) (ttl : Int),
      RedisProvider.get (RedisProvider.setex (Backend.up st) key ttl JsValue.null) key
        = JsValue.null) ∧
    (∀ (st : Store) (key : String), slookup st key = none →
      RedisProvider.get (Backend.up st) key = JsValue.null) ∧
    (∀ key : String, RedisProvider.get Backend.down key = JsValue.null) := by
  refine ⟨fun st key ttl => get_after_setex st key ttl .null, fun st key h => ?_, fun key => rfl⟩
  simp [RedisProvider.get, h]

/-- Witness for C10 at a concrete store and key. -/
theorem C10_cached_null_is_miss_witness :
    RedisProvider.get (RedisProvider.setex (Backend.up []) ("k") 60 JsValue.null) ("k")
      = JsValue.null ∧
    RedisProvider.get (Backend.up []) ("k") = JsValue.null ∧
    RedisProvider.get Backend.down ("k") = JsValue.null :=
  ⟨C10_cached_null_is_miss.1 [] ("k") 60,
   C10_cached_null_is_miss.2.1 [] ("k") rfl,
   C10_cached_null_is_miss.2.2 ("k")⟩

/-- C1 (amended): with the backend unreachable, every public method
except the pipeline's `exec` resolves with its documented degraded
value (`null`, `false`, `0`, the empty list/map, or a no-op); the
pipeline's `exec`, which has no `try`/`catch`, instead rejects. -/
theorem C1_degrades_except_pipeline_exec :
    (∀ key : String, RedisProvider.get Backend.down key = JsValue.null) ∧
    (∀ (key : String) (ttl : Int) (v : JsValue),
      RedisProvider.setex Backend.down key ttl v = Backend.down) ∧
    (∀ (key : String) (v : JsValue) (ttl : Option Int),
      RedisProvider.set Backend.down key v ttl = Backend.down) ∧
    (∀ key : String, RedisProvider.del Backend.down key = Backend.down) ∧
    (∀ key : String, RedisProvider.rexists Backend.down key = false) ∧
    RedisProvider.ping Backend.down = false ∧
    (∀ (key : String) (members : List String),
      RedisProvider.sadd Backend.down key members = (0, Backend.down)) ∧
    (∀ key : String, RedisProvider.smembers Backend.down key = []) ∧
    (∀ key : String, RedisProvider.scard Backend.down key = 0) ∧
    (∀ (key : String) (fields : List (String × JsValue)),
      RedisProvider.hset Backend.down key fields = Backend.down) ∧
    (∀ key : String, RedisProvider.hgetall Backend.down key = []) ∧
    (∀ (key field : String) (n : Int),
      RedisProvider.hincrby Backend.down key field n = (0, Backend.down)) ∧
    (∀ key : String, RedisProvider.incr Backend.down key = (0, Backend.down)) ∧
    (∀ pattern : String, RedisProvider.keys Backend.down pattern = []) ∧
    (∀ cmds : List PipeCmd, (Pipeline.exec Backend.down cmds).1 = Except.error RErr.conn) := by
  refine ⟨?_, ?_, ?_, ?_, ?_, ?_, ?_, ?_, ?_, ?_, ?_, ?_, ?_, ?_, ?_⟩ <;> intros <;> rfl

/-- Counterexample to C1 as stated: on an unreachable backend the
pipeline's `exec` does not resolve with a degraded empty list — it
rejects (`pipe.exec()` rejects, and the result mapping rethrows
per-command errors with `if (err) throw err`). -/
theorem C1_counterexample :
    (Pipeline.exec Backend.down []).1 = Except.error RErr.conn ∧
    (Pipeline.exec Backend.down [PipeCmd.incr ("queries:total")]).1
      = Except.error RErr.conn :=
  ⟨rfl, rfl⟩

/-! ## Substring lemmas for the cluster-detection claim -/

/-- `isPrefixOf` characterized by an append decomposition. -/
theorem isPrefixOf_iff : ∀ (l s : List Char), l.isPrefixOf s = true ↔ ∃ t, s = l ++ t := by
  intro l
  induction l with
  | nil =>
    intro s
    simp [List.isPrefixOf]
  | cons a l' ih =>
    intro s
    cases s with
    | nil =>
      simp [List.isPrefixOf]
    | cons b t =>
      simp only [List.isPrefixOf, Bool.and_eq_true, beq_iff_eq, ih t, List.cons_append,
        List.cons.injEq]
      constructor
      · rintro ⟨h1, t', h2⟩
        exact ⟨t', h1.symm, h2⟩
      · rintro ⟨t', h1, h2⟩
        exact ⟨h1.symm, t', h2⟩

/-- Containment characterized by an append decomposition. -/
theorem listContains_iff : ∀ (s sub : List Char),
    listContains s sub = true ↔ ∃ l r, s = l ++ (sub ++ r) := by
  intro s
  induction s with
  | nil =>
    intro sub
    constructor
    · intro h
      have hs : sub = [] := by
        cases sub with
        | nil => rfl
        | cons x xs => simp [listContains] at h
      exact ⟨[], [], by simp [hs]⟩
    · rintro ⟨l, r, h⟩
      have := h.symm
      simp only [List.append_eq_nil] at this
      simp [listContains, this.1, this.2.1]
  | cons c t ih =>
    intro sub
    simp only [listContains, Bool.or_eq_true, isPrefixOf_iff, ih]
    constructor
    · rintro (⟨r, hr⟩ | ⟨l, r, h⟩)
      · exact ⟨[], r, by simp [hr]⟩
      · exact ⟨c :: l, r, by simp [h]⟩
    · rintro ⟨l, r, h⟩
      cases l with
      | nil =>
        left
        exact ⟨r, by simpa using h⟩
      | cons x l' =>
        right
        simp only [List.cons_append, List.cons.injEq] at h
        exact ⟨l', r, h.2⟩

/-- Containment is transitive. -/
theorem listContains_trans {s b a : List Char} (h1 : listContains s b = true)
    (h2 : listContains b a = true) : listContains s a = true := by
  rw [listContains_iff] at h1 h2 ⊢
  obtain ⟨l1, r1, e1⟩ := h1
  obtain ⟨l2, r2, e2⟩ := h2
  exact ⟨l1 ++ l2, r2 ++ r1, by rw [e1, e2]; simp⟩

/-- Containment is preserved by mapping a character function. -/
theorem listContains_map (f : Char → Char) {s sub : List Char}
    (h : listContains s sub = true) : listContains (s.map f) (sub.map f) = true := by
  rw [listContains_iff] at h ⊢
  obtain ⟨l, r, e⟩ := h
  exact ⟨l.map f, r.map f, by rw [e]; simp⟩

/-- Every list contains itself. -/
theorem contains_refl (l : List Char) : listContains l l = true :=
  (listContains_iff l l).mpr ⟨[], [], by simp⟩

/-- A list contains its `takeWhile` prefix. -/
theorem contains_takeWhile (p : Char → Bool) (l : List Char) :
    listContains l (l.takeWhile p) = true :=
  (listContains_iff l (l.takeWhile p)).mpr
    ⟨[], l.dropWhile p, by simp [List.takeWhile_append_dropWhile]⟩

/-- A list contains its `drop` suffix. -/
theorem contains_drop (l : List Char) (n : Nat) : listContains l (l.drop n) = true :=
  (listContains_iff l (l.drop n)).mpr ⟨l.take n, [], by simp⟩

/-- A list contains the reversed `takeWhile` of its reverse (its
maximal suffix of characters satisfying `p`). -/
theorem contains_revTakeWhile (p : Char → Bool) (l : List Char) :
    listContains l ((l.reverse.takeWhile p).reverse) = true := by
  rw [listContains_iff]
  refine ⟨(l.reverse.dropWhile p).reverse, [], ?_⟩
  have h := List.takeWhile_append_dropWhile p l.reverse
  rw [List.append_nil, ← List.reverse_append, h, List.reverse_reverse]

/-- The extracted hostname is a substring of the connection string. -/
theorem extractHostname_contained (url : String) :
    listContains url.data (extractHostname url) = true := by
  unfold extractHostname
  have step1 : listContains url.data
      (if ("redis://".data).isPrefixOf url.data then url.data.drop 8 else url.data) = true := by
    split
    · exact contains_drop url.data 8
    · exact contains_refl url.data
  exact listContains_trans
    (listContains_trans (listContains_trans step1 (contains_takeWhile _ _))
      (contains_revTakeWhile _ _))
    (contains_takeWhile _ _)

/-- C6 (amended): the self-hosted provider constructs a cluster-mode
client for every connection string containing `?cluster=true`; it
constructs a standalone client for every non-empty connection string
that contains no comma and no case-insensitive occurrence of
`cluster` anywhere (detection also fires on comma-separated hosts and
on a `cluster`-bearing hostname, so the unconditional `without the
flag ⇒ standalone` direction of the claim is false). -/
theorem C6_cluster_detection :
    (∀ url : String, listContains url.data ("?cluster=true".data) = true →
      RedisProvider.init (some url) = Except.ok ClientMode.cluster) ∧
    (∀ url : String, url ≠ "" →
      listContains (lowerChars url.data) ("cluster".data) = false →
      listContains url.data [','] = false →
      RedisProvider.init (some url) = Except.ok ClientMode.standalone) := by
  constructor
  · intro url h
    have h2 : listContains url.data ("cluster=true".data) = true :=
      listContains_trans h (by decide)
    have hne : url ≠ "" := by
      intro e
      subst e
      revert h
      decide
    simp [RedisProvider.init, hne, isClusterConnection, h2]
  · intro url hne hlow hcomma
    have h1 : listContains url.data ("cluster=true".data) = false := by
      cases hc : listContains url.data ("cluster=true".data)
      · rfl
      · exfalso
        have hm := listContains_map jsCharLower hc
        have hcl : listContains (lowerChars url.data) ("cluster".data) = true :=
          listContains_trans hm (by decide)
        rw [hcl] at hlow
        exact Bool.noConfusion hlow
    have h2 : listContains url.data ("?cluster".data) = false := by
      cases hc : listContains url.data ("?cluster".data)
      · rfl
      · exfalso
        have hm := listContains_map jsCharLower hc
        have hcl : listContains (lowerChars url.data) ("cluster".data) = true :=
          listContains_trans hm (by decide)
        rw [hcl] at hlow
        exact Bool.noConfusion hlow
    have h3 : listContains (lowerChars (extractHostname url)) ("cluster".data) = false := by
      cases hc : listContains (lowerChars (extractHostname url)) ("cluster".data)
      · rfl
      · exfalso
        have hm := listContains_map jsCharLower (extractHostname_contained url)
        have hcl : listContains (lowerChars url.data) ("cluster".data) = true :=
          listContains_trans hm hc
        rw [hcl] at hlow
        exact Bool.noConfusion hlow
    simp [RedisProvider.init, hne, isClusterConnection, h1, h2, hcomma, h3]

/-- Witness for C6 at concrete connection strings. -/
theorem C6_cluster_detection_witness :
    RedisProvider.init (some ("redis://h:1?cluster=true")) = Except.ok ClientMode.cluster ∧
    RedisProvider.init (some ("redis://localhost:6379")) = Except.ok ClientMode.standalone :=
  ⟨C6_cluster_detection.1 ("redis://h:1?cluster=true") (by decide),
   C6_cluster_detection.2 ("redis://localhost:6379") (by decide) (by decide) (by decide)⟩

/-- Counterexample to C6 as stated: a two-host connection string
contains no `?cluster=true` flag, yet a cluster-mode client is
constructed (comma detection). -/
theorem C6_counterexample :
    RedisProvider.init (some ("redis://host1:6379,host2:6379")) = Except.ok ClientMode.cluster ∧
    listContains (("redis://host1:6379,host2:6379").data) ("?cluster=true".data) = false :=
  ⟨rfl, by decide⟩

/-- C7: two queries equal after lower-casing and trimming produce the
same cache key in `cacheQuerySelection`/`getCachedQuerySelection`, so
a selection stored under one query is returned for the other. -/
theorem C7_query_normalization (st : Store) (owner repo q1 q2 : String) (files : List String)
    (h : normalizeQuery q1 = normalizeQuery q2) :
    querySelectionKey owner repo q1 = querySelectionKey owner repo q2 ∧
    getCachedQuerySelection (cacheQuerySelection (Backend.up st) owner repo q1 files)
      owner repo q2 = JsValue.arr (strArr files) := by
  have hk : querySelectionKey owner repo q1 = querySelectionKey owner repo q2 := by
    unfold querySelectionKey
    rw [h]
  refine ⟨hk, ?_⟩
  unfold getCachedQuerySelection cacheQuerySelection
  rw [← hk]
  exact get_after_setex st _ 86400 _

/-- Witness for C7 at the spec's example pair of queries. -/
theorem C7_query_normalization_witness :
    querySelectionKey ("o") ("r") ("  Find Auth Bugs  ")
      = querySelectionKey ("o") ("r") ("find auth bugs") ∧
    getCachedQuerySelection
      (cacheQuerySelection (Backend.up []) ("o") ("r") ("  Find Auth Bugs  ") [("src/auth.ts")])
      ("o") ("r") ("find auth bugs") = JsValue.arr (strArr [("src/auth.ts")]) :=
  C7_query_normalization [] ("o") ("r") ("  Find Auth Bugs  ") ("find auth bugs")
    [("src/auth.ts")] (by decide)

/-- C5: the factory selects the cluster backend whenever the explicit
enable flag is set, regardless of the named provider; otherwise it
selects the backend named by `AI_PROVIDER` (case-insensitively); an
unrecognized name selects the default Gemini backend with a warning,
and the selection never throws (it is a total function). -/
theorem C5_factory_selection :
    (∀ ce p, clusterFlagSet ce = true → createAIProvider ce p = (AIBackend.cluster, false)) ∧
    (∀ ce p, clusterFlagSet ce = false →
      (providerName p = "gemini" → createAIProvider ce p = (AIBackend.gemini, false)) ∧
      (providerName p = "openai" → createAIProvider ce p = (AIBackend.openai, false)) ∧
      (providerName p = "openai-compatible" → createAIProvider ce p = (AIBackend.openai, false)) ∧
      (providerName p = "anthropic" → createAIProvider ce p = (AIBackend.anthropic, false)) ∧
      (providerName p = "cluster-ai" → createAIProvider ce p = (AIBackend.cluster, false)) ∧
      (providerName p = "cluster-mcp" → createAIProvider ce p = (AIBackend.cluster, false)) ∧
      (providerName p ≠ "gemini" → providerName p ≠ "openai" →
       providerName p ≠ "openai-compatible" → providerName p ≠ "anthropic" →
       providerName p ≠ "cluster-ai" → providerName p ≠ "cluster-mcp" →
       createAIProvider ce p = (AIBackend.gemini, true))) := by
  constructor
  · intro ce p h
    simp [createAIProvider, h]
  · intro ce p h
    refine ⟨?_, ?_, ?_, ?_, ?_, ?_, ?_⟩ <;> intro hp
    · simp [createAIProvider, h, hp]
    · simp [createAIProvider, h, hp]
    · simp [createAIProvider, h, hp]
    · simp [createAIProvider, h, hp]
    · simp [createAIProvider, h, hp]
    · simp [createAIProvider, h, hp]
    · intro hp2 hp3 hp4 hp5 hp6
      simp [createAIProvider, h, hp, hp2, hp3, hp4, hp5, hp6]

/-- Witness for C5: the flag overrides a named provider; a recognized
name is honoured case-insensitively; an unknown name warns and falls
back to Gemini. -/
theorem C5_factory_selection_witness :
    createAIProvider (some ("TRUE")) (some ("anthropic")) = (AIBackend.cluster, false) ∧
    createAIProvider none (some ("OpenAI")) = (AIBackend.openai, false) ∧
    createAIProvider none (some ("llama")) = (AIBackend.gemini, true) :=
  ⟨C5_factory_selection.1 (some ("TRUE")) (some ("anthropic")) (by decide),
   (C5_factory_selection.2 none (some ("OpenAI")) (by decide)).2.1 (by decide),
   (C5_factory_selection.2 none (some ("llama")) (by decide)).2.2.2.2.2.2
     (by decide) (by decide) (by decide) (by decide) (by decide) (by decide)⟩

/-- C8: every provider constructor requiring a credential fails fast
at construction time when the credential is absent or empty, and every
successfully constructed provider state necessarily holds a non-empty
credential — so the generate/cache methods can never run with a
missing credential. -/
theorem C8_fail_fast_construction :
    (∀ (b : Option String) (m : String), OpenAIProvider.mk? ("") b m
      = Except.error ("OPENAI_API_KEY environment variable is not set")) ∧
    (∀ (k : String) (b : Option String) (m : String) (s : OpenAIProviderState),
      OpenAIProvider.mk? k b m = Except.ok s → k ≠ "" ∧ s.apiKey = k) ∧
    (∀ m : String, AnthropicProvider.mk? ("") m
      = Except.error ("ANTHROPIC_API_KEY environment variable is not set")) ∧
    (∀ (k m : String) (s : AnthropicProviderState),
      AnthropicProvider.mk? k m = Except.ok s → k ≠ "" ∧ s.apiKey = k) ∧
    (∀ m : String, GeminiProvider.mk? ("") m
      = Except.error ("GEMINI_API_KEY environment variable is not set")) ∧
    (∀ (k m : String) (s : GeminiProviderState),
      GeminiProvider.mk? k m = Except.ok s → k ≠ "" ∧ s.apiKey = k) ∧
    RedisProvider.init none = Except.error ("REDIS_URL environment variable is not set") ∧
    RedisProvider.init (some (""))
      = Except.error ("REDIS_URL environment variable is not set") ∧
    (∀ (u : String) (mode : ClientMode), RedisProvider.init (some u) = Except.ok mode → u ≠ "") := by
  refine ⟨fun b m => rfl, ?_, fun m => rfl, ?_, fun m => rfl, ?_, rfl, rfl, ?_⟩
  · intro k b m s h
    by_cases hk : k = ""
    · subst hk
      simp [OpenAIProvider.mk?] at h
    · refine ⟨hk, ?_⟩
      simp [OpenAIProvider.mk?, hk] at h
      rw [← h]
  · intro k m s h
    by_cases hk : k = ""
    · subst hk
      simp [AnthropicProvider.mk?] at h
    · refine ⟨hk, ?_⟩
      simp [AnthropicProvider.mk?, hk] at h
      rw [← h]
  · intro k m s h
    by_cases hk : k = ""
    · subst hk
      simp [GeminiProvider.mk?] at h
    · refine ⟨hk, ?_⟩
      simp [GeminiProvider.mk?, hk] at h
      rw [← h]
  · intro u mode h
    intro e
    subst e
    simp [RedisProvider.init] at h

/-- Witness for C8: a constructed provider always carries its
non-empty key. -/
theorem C8_fail_fast_construction_witness :
    (("sk" : String) ≠ "" ∧
      (OpenAIProviderState.mk ("sk") none ("gpt-4")).apiKey = ("sk" : String)) ∧
    (("redis://x" : String) ≠ "") :=
  ⟨C8_fail_fast_construction.2.1 ("sk") none ("gpt-4") ⟨("sk"), none, ("gpt-4")⟩ rfl,
   C8_fail_fast_construction.2.2.2.2.2.2.2.2 ("redis://x") ClientMode.standalone rfl⟩

/-- C2 (amended): whenever the visitor-id set is empty,
`getAnalyticsData` returns the short-circuit snapshot — zero visitors,
zero active users, empty histograms and visitor list — but
`totalQueries` is `totalQueries || 0`: the stored total-query counter
when it is present and truthy, not a constant zero. -/
theorem C2_empty_visitor_set (st : Store) (now : Int)
    (h : RedisProvider.smembers (Backend.up st) ("visitors") = []) :
    getAnalyticsData (Backend.up st) now =
      ⟨0, jsOrV (RedisProvider.get (Backend.up st) ("queries:total")) (JsValue.num 0),
       0, [], [], []⟩ := by
  simp [getAnalyticsData, h]

/-- Witness for C2 at a store with an empty visitor set and a non-zero
stored query counter. -/
theorem C2_empty_visitor_set_witness :
    getAnalyticsData
      (Backend.up [(("queries:total"), RedisObj.str ("5")), (("visitors"), RedisObj.set [])]) 0
      = ⟨0, jsOrV (RedisProvider.get
          (Backend.up [(("queries:total"), RedisObj.str ("5")), (("visitors"), RedisObj.set [])])
          ("queries:total")) (JsValue.num 0), 0, [], [], []⟩ :=
  C2_empty_visitor_set [(("queries:total"), RedisObj.str ("5")), (("visitors"), RedisObj.set [])]
    0 rfl

/-- Counterexample to C2 as stated: with an empty visitor set but a
stored total-query counter of 5, the snapshot is not the zeroed one —
its `totalQueries` is 5. -/
theorem C2_counterexample :
    getAnalyticsData
      (Backend.up [(("queries:total"), RedisObj.str ("5")), (("visitors"), RedisObj.set [])]) 0
      ≠ ⟨0, JsValue.num 0, 0, [], [], []⟩ := by decide

/-! ## Lemmas for the device-histogram seeding claim -/

/-- A key on which `HGETALL` succeeds: absent or hash-typed. -/
def hashOk (st : Store) (k : String) : Prop :=
  slookup st k = none ∨ ∃ h, slookup st k = some (RedisObj.hash h)

/-- `HGETALL` on such a key replies with a map and leaves the store
unchanged. -/
theorem execCmd_hgetall_ok {st : Store} {k : String} (h : hashOk st k) :
    ∃ fs, execCmd st (PipeCmd.hgetall k) = (Except.ok (RVal.map fs), st) := by
  rcases h with h | ⟨hs, h⟩
  · exact ⟨[], by simp [execCmd, h]⟩
  · exact ⟨hs, by simp [execCmd, h]⟩

/-- A pipeline consisting only of `HGETALL`s on absent-or-hash keys
succeeds as a whole. -/
theorem hgetall_pipeline_ok : ∀ (ids : List String) (st : Store),
    (∀ id ∈ ids, hashOk st ("visitor:" ++ id)) →
    ∃ results,
      mapExecResults
        (pipeExecRaw st (ids.map (fun id => PipeCmd.hgetall ("visitor:" ++ id)))).1
        = Except.ok results := by
  intro ids
  induction ids with
  | nil =>
    intro st _
    exact ⟨[], rfl⟩
  | cons id rest ih =>
    intro st hh
    obtain ⟨fs, hfs⟩ := execCmd_hgetall_ok (hh id (by simp))
    obtain ⟨results, hres⟩ := ih st (fun i hi => hh i (by simp [hi]))
    refine ⟨PRVal.map (parseHash fs) :: results, ?_⟩
    simp only [List.map_cons, pipeExecRaw, hfs]
    simp [mapExecResults, hres, consPR, parseRVal]

/-- Updating one key never removes another key's binding. -/
theorem slookup_supdate_isSome {α : Type} (m : List (String × α)) (k' k : String) (v : α)
    (h : (slookup m k).isSome) : (slookup (supdate m k' v) k).isSome := by
  by_cases he : k' = k
  · subst he
    simp [slookup_supdate_self]
  · rwa [slookup_supdate_ne m k' k v he]

/-- The histogram update never removes a key. -/
theorem statsUpdate_isSome (stats : List (String × Int)) (k' k : String)
    (h : (slookup stats k).isSome) : (slookup (statsUpdate stats k') k).isSome := by
  unfold statsUpdate
  cases slookup stats k' <;> exact slookup_supdate_isSome _ _ _ _ h

/-- The aggregation loop never removes a device-histogram key. -/
theorem analyticsFold_dev_isSome (now : Int) :
    ∀ (l : List (String × PRVal)) (fs : FoldState) (k : String),
    (slookup fs.dev k).isSome → (slookup (analyticsFold now l fs).dev k).isSome := by
  intro l
  induction l with
  | nil =>
    intro fs k h
    exact h
  | cons p rest ih =>
    intro fs k h
    by_cases he : p.1 = ""
    · simpa [analyticsFold, he] using ih fs k h
    · simp only [analyticsFold]
      rw [if_neg ?_]
      · exact ih _ k (statsUpdate_isSome _ _ _ h)
      · cases p
        simpa using he

/-- C9: whenever the visitor-id set is non-empty (and each
`visitor:<id>` key is absent or hash-typed, so the hash-read pipeline
succeeds), the device histogram of `getAnalyticsData` contains the
seeded keys `mobile`, `desktop` and `unknown` even when no visitor has
that device — unlike the country histogram, which starts empty. -/
theorem C9_device_stats_seeded (st : Store) (now : Int)
    (hne : RedisProvider.smembers (Backend.up st) ("visitors") ≠ [])
    (hh : ∀ id ∈ RedisProvider.smembers (Backend.up st) ("visitors"),
      hashOk st ("visitor:" ++ id)) :
    (slookup (getAnalyticsData (Backend.up st) now).deviceStats ("mobile")).isSome ∧
    (slookup (getAnalyticsData (Backend.up st) now).deviceStats ("desktop")).isSome ∧
    (slookup (getAnalyticsData (Backend.up st) now).deviceStats ("unknown")).isSome := by
  obtain ⟨results, hres⟩ := hgetall_pipeline_ok _ st hh
  have hdev : (getAnalyticsData (Backend.up st) now).deviceStats
      = (analyticsFold now
          ((RedisProvider.smembers (Backend.up st) ("visitors")).zip results)
          ⟨[], 0, [(("mobile"), 0), (("desktop"), 0), (("unknown"), 0)], []⟩).dev := by
    simp [getAnalyticsData, hne, Pipeline.exec, hres]
  rw [hdev]
  exact ⟨analyticsFold_dev_isSome now _ _ _ (by decide),
    analyticsFold_dev_isSome now _ _ _ (by decide),
    analyticsFold_dev_isSome now _ _ _ (by decide)⟩

/-- Witness for C9 at a store with one visitor id and no visitor
hash. -/
theorem C9_device_stats_seeded_witness :
    (slookup ((getAnalyticsData (Backend.up [(("visitors"), RedisObj.set [("v1")])]) 0).deviceStats)
      ("mobile")).isSome ∧
    (slookup ((getAnalyticsData (Backend.up [(("visitors"), RedisObj.set [("v1")])]) 0).deviceStats)
      ("desktop")).isSome ∧
    (slookup ((getAnalyticsData (Backend.up [(("visitors"), RedisObj.set [("v1")])]) 0).deviceStats)
      ("unknown")).isSome :=
  C9_device_stats_seeded [(("visitors"), RedisObj.set [("v1")])] 0 (by decide)
    (by
      intro id hid
      simp [RedisProvider.smembers, slookup] at hid
      subst hid
      exact Or.inl rfl)

/-- The key a pipeline command operates on. -/
def cmdKey : PipeCmd → String
  | .setex k _ _ => k
  | .sadd k _ => k
  | .hset k _ => k
  | .hincrby k _ _ => k
  | .incr k => k
  | .hgetall k => k

/-- A command touching one key leaves every other binding intact. -/
theorem execCmd_other_key (st : Store) (cmd : PipeCmd) (k : String) (h : cmdKey cmd ≠ k) :
    slookup (execCmd st cmd).2 k = slookup st k := by
  cases cmd <;> simp only [cmdKey] at h <;> simp only [execCmd] <;>
    (repeat' split) <;> simp [slookup_supdate_ne _ _ _ _ h]

/-- Running a concatenated batch runs the two halves in order. -/
theorem pipeExecRaw_append (st : Store) (l1 l2 : List PipeCmd) :
    (pipeExecRaw st (l1 ++ l2)).2 = (pipeExecRaw (pipeExecRaw st l1).2 l2).2 := by
  induction l1 generalizing st with
  | nil => simp [pipeExecRaw]
  | cons c t ih => simp [pipeExecRaw, ih]

/-- A one-command batch is that command. -/
theorem pipeExecRaw_single (st : Store) (cmd : PipeCmd) :
    (pipeExecRaw st [cmd]).2 = (execCmd st cmd).2 := by
  simp [pipeExecRaw]

/-- The visitor-set key differs from every visitor hash key. -/
theorem vk_ne_visitors (id : String) : ("visitors" : String) ≠ "visitor:" ++ id := by
  intro h
  have hd := congrArg String.data h
  rw [String.data_append] at hd
  have e1 : ("visitors" : String).data = ['v','i','s','i','t','o','r','s'] := rfl
  have e2 : ("visitor:" : String).data = ['v','i','s','i','t','o','r',':'] := rfl
  rw [e1, e2] at hd
  simp at hd

/-- The query-counter key differs from every visitor hash key. -/
theorem vk_ne_queries (id : String) : ("queries:total" : String) ≠ "visitor:" ++ id := by
  intro h
  have hd := congrArg String.data h
  rw [String.data_append] at hd
  have e1 : ("queries:total" : String).data
      = ['q','u','e','r','i','e','s',':','t','o','t','a','l'] := rfl
  have e2 : ("visitor:" : String).data = ['v','i','s','i','t','o','r',':'] := rfl
  rw [e1, e2] at hd
  simp at hd

/-- Country-counter keys differ from every visitor hash key. -/
theorem vk_ne_statsCountry (id s : String) :
    ("stats:country:" ++ s : String) ≠ "visitor:" ++ id := by
  intro h
  have hd := congrArg String.data h
  rw [String.data_append, String.data_append] at hd
  have e1 : ("stats:country:" : String).data
      = ['s','t','a','t','s',':','c','o','u','n','t','r','y',':'] := rfl
  have e2 : ("visitor:" : String).data = ['v','i','s','i','t','o','r',':'] := rfl
  rw [e1, e2] at hd
  simp at hd

/-- Device-counter keys differ from every visitor hash key. -/
theorem vk_ne_statsDevice (id s : String) :
    ("stats:device:" ++ s : String) ≠ "visitor:" ++ id := by
  intro h
  have hd := congrArg String.data h
  rw [String.data_append, String.data_append] at hd
  have e1 : ("stats:device:" : String).data
      = ['s','t','a','t','s',':','d','e','v','i','c','e',':'] := rfl
  have e2 : ("visitor:" : String).data = ['v','i','s','i','t','o','r',':'] := rfl
  rw [e1, e2] at hd
  simp at hd


/-- `HSET` on an absent key creates the hash. -/
theorem execCmd_hset_none {st : Store} {k : String} (fields : List (String × String))
    (h : slookup st k = none) :
    (execCmd st (PipeCmd.hset k fields)).2 = supdate st k (RedisObj.hash (hsetGo [] fields).1) := by
  simp [execCmd, h]

/-- `HSET` on a hash key folds the updates into it. -/
theorem execCmd_hset_hash {st : Store} {k : String} {h0 : List (String × String)}
    (fields : List (String × String)) (h : slookup st k = some (RedisObj.hash h0)) :
    (execCmd st (PipeCmd.hset k fields)).2 = supdate st k (RedisObj.hash (hsetGo h0 fields).1) := by
  simp [execCmd, h]

/-- `HINCRBY` keeps the key hash-typed and touches only its own
field. -/
theorem execCmd_hincrby_fields {st : Store} {k : String} {h0 : List (String × String)}
    (f : String) (n : Int) (h : slookup st k = some (RedisObj.hash h0)) :
    ∃ h1, slookup (execCmd st (PipeCmd.hincrby k f n)).2 k = some (RedisObj.hash h1) ∧
      ∀ g, f ≠ g → slookup h1 g = slookup h0 g := by
  simp only [execCmd, h]
  cases hf : slookup h0 f with
  | none =>
    exact ⟨supdate h0 f (intRepr n), by simp [slookup_supdate_self],
      fun g hg => slookup_supdate_ne _ _ _ _ hg⟩
  | some s =>
    cases hp : parseRedisInt s with
    | none => exact ⟨h0, by simp [hp, h], fun g _ => rfl⟩
    | some m =>
      exact ⟨supdate h0 f (intRepr (m + n)), by simp [hp, slookup_supdate_self],
        fun g hg => slookup_supdate_ne _ _ _ _ hg⟩

/-- `HSET` with no fields is the identity. -/
theorem hsetGo_nil (h : List (String × String)) : (hsetGo h []).1 = h := rfl

/-- `HSET` applies its field updates left to right. -/
theorem hsetGo_cons (h : List (String × String)) (f v : String)
    (rest : List (String × String)) :
    (hsetGo h ((f, v) :: rest)).1 = (hsetGo (supdate h f v) rest).1 := by
  simp [hsetGo]


/-- `HSET` leaves fields it does not mention unchanged. -/
theorem hsetGo_other (g : String) : ∀ (fields : List (String × String))
    (h : List (String × String)), (∀ kv ∈ fields, kv.1 ≠ g) →
    slookup (hsetGo h fields).1 g = slookup h g := by
  intro fields
  induction fields with
  | nil =>
    intro h _
    rfl
  | cons kv rest ih =>
    intro h hmem
    cases kv with
    | mk f v =>
      rw [hsetGo_cons]
      rw [ih _ (fun x hx => hmem x (by simp [hx]))]
      exact slookup_supdate_ne _ _ _ _ (hmem (f, v) (by simp))

/-- Membership in a conditional singleton list. -/
theorem mem_if_single {α : Type} {P : Prop} [Decidable P] {x y : α}
    (h : y ∈ (if P then [x] else [])) : y = x := by
  split at h
  · simpa using h
  · simp at h

/-- The trailing counter commands of `trackEvent` keep the visitor
key hash-typed and leave every hash field except `queryCount`
unchanged. -/
theorem trackTail_preserves (st : Store) (id : String) (e : EventType)
    (c d : Option String) (h0 : List (String × String))
    (hst : slookup st ("visitor:" ++ id) = some (RedisObj.hash h0)) :
    ∃ h1, slookup (pipeExecRaw st (trackTail ("visitor:" ++ id) e c d)).2 ("visitor:" ++ id)
        = some (RedisObj.hash h1) ∧
      ∀ g, ("queryCount" : String) ≠ g → slookup h1 g = slookup h0 g := by
  have hci : ∀ st' : Store,
      slookup (pipeExecRaw st'
          (if strTruthy c then [PipeCmd.incr (("stats:country:" : String) ++ c.getD "")] else [])).2
        ("visitor:" ++ id) = slookup st' ("visitor:" ++ id) := by
    intro st'
    cases hb : strTruthy c
    · simp [hb, pipeExecRaw]
    · simp only [hb, if_pos]
      rw [pipeExecRaw_single]
      exact execCmd_other_key st' (PipeCmd.incr (("stats:country:" : String) ++ c.getD ""))
        ("visitor:" ++ id) (vk_ne_statsCountry id (c.getD ""))
  have hdi : ∀ st' : Store,
      slookup (pipeExecRaw st'
          (if strTruthy d then [PipeCmd.incr (("stats:device:" : String) ++ d.getD "")] else [])).2
        ("visitor:" ++ id) = slookup st' ("visitor:" ++ id) := by
    intro st'
    cases hb : strTruthy d
    · simp [hb, pipeExecRaw]
    · simp only [hb, if_pos]
      rw [pipeExecRaw_single]
      exact execCmd_other_key st' (PipeCmd.incr (("stats:device:" : String) ++ d.getD ""))
        ("visitor:" ++ id) (vk_ne_statsDevice id (d.getD ""))
  obtain ⟨h1, hh1, hpres⟩ : ∃ h1,
      slookup (pipeExecRaw st (trackQ ("visitor:" ++ id) e)).2 ("visitor:" ++ id)
        = some (RedisObj.hash h1) ∧
      ∀ g, ("queryCount" : String) ≠ g → slookup h1 g = slookup h0 g := by
    cases e
    · have hst1 : slookup (execCmd st (PipeCmd.incr ("queries:total"))).2 ("visitor:" ++ id)
          = some (RedisObj.hash h0) := by
        rw [execCmd_other_key st (PipeCmd.incr ("queries:total")) ("visitor:" ++ id)
          (vk_ne_queries id)]
        exact hst
      obtain ⟨h1, hh1, hp⟩ := execCmd_hincrby_fields ("queryCount") 1 hst1
      refine ⟨h1, ?_, fun g hg => hp g hg⟩
      simpa [trackQ, pipeExecRaw] using hh1
    · exact ⟨h0, by simpa [trackQ, pipeExecRaw] using hst, fun g _ => rfl⟩
  refine ⟨h1, ?_, hpres⟩
  unfold trackTail
  rw [pipeExecRaw_append, pipeExecRaw_append, hdi, hci]
  exact hh1


/-- `trackEvent` on a brand-new visitor id creates the visitor hash
and stamps `firstSeen` with the call timestamp. -/
theorem trackEvent_fresh (st : Store) (id : String) (e : EventType)
    (c d u : Option String) (t : Int)
    (h0 : slookup st ("visitor:" ++ id) = none) :
    ∃ st1 h1, trackEvent (Backend.up st) id e c d u t = Backend.up st1 ∧
      slookup st1 ("visitor:" ++ id) = some (RedisObj.hash h1) ∧
      slookup h1 ("firstSeen") = some (jsonStringify (JsValue.num t)) := by
  have hex : RedisProvider.rexists (Backend.up st) ("visitor:" ++ id) = false := by
    simp [RedisProvider.rexists, h0]
  have hrun : trackEvent (Backend.up st) id e c d u t
      = Backend.up (pipeExecRaw st (trackCmds false id e c d u t)).2 := by
    simp only [trackEvent, hex, Pipeline.exec]
  have hcmds : trackCmds false id e c d u t
      = PipeCmd.sadd ("visitors") [id] :: trackStatic ("visitor:" ++ id) c d u t ::
        trackDyn ("visitor:" ++ id) c d t :: trackTail ("visitor:" ++ id) e c d := by
    simp [trackCmds]
  have hsteps : (pipeExecRaw st (PipeCmd.sadd ("visitors") [id] ::
        trackStatic ("visitor:" ++ id) c d u t ::
        trackDyn ("visitor:" ++ id) c d t :: trackTail ("visitor:" ++ id) e c d)).2
      = (pipeExecRaw
          (execCmd
            (execCmd (execCmd st (PipeCmd.sadd ("visitors") [id])).2
              (trackStatic ("visitor:" ++ id) c d u t)).2
            (trackDyn ("visitor:" ++ id) c d t)).2
          (trackTail ("visitor:" ++ id) e c d)).2 := by
    simp [pipeExecRaw]
  have hA : slookup (execCmd st (PipeCmd.sadd ("visitors") [id])).2 ("visitor:" ++ id)
      = none := by
    rw [execCmd_other_key st (PipeCmd.sadd ("visitors") [id]) ("visitor:" ++ id)
      (vk_ne_visitors id)]
    exact h0
  have hstatic : trackStatic ("visitor:" ++ id) c d u t
      = PipeCmd.hset ("visitor:" ++ id)
          [("firstSeen", jsonStringify (JsValue.num t)),
           ("country", jsonStringify (JsValue.str (jsStrOr c ("Unknown")))),
           ("device", jsonStringify (JsValue.str (jsStrOr d ("unknown")))),
           ("userAgent", jsonStringify (JsValue.str (jsStrOr u (""))))] := by
    simp [trackStatic, pipeHset]
  rw [hstatic] at hsteps
  have hB := execCmd_hset_none
    [("firstSeen", jsonStringify (JsValue.num t)),
     ("country", jsonStringify (JsValue.str (jsStrOr c ("Unknown")))),
     ("device", jsonStringify (JsValue.str (jsStrOr d ("unknown")))),
     ("userAgent", jsonStringify (JsValue.str (jsStrOr u (""))))] hA
  rw [hB] at hsteps
  -- the resulting static hash, literally
  have hH0 : (hsetGo ([] : List (String × String))
      [("firstSeen", jsonStringify (JsValue.num t)),
       ("country", jsonStringify (JsValue.str (jsStrOr c ("Unknown")))),
       ("device", jsonStringify (JsValue.str (jsStrOr d ("unknown")))),
       ("userAgent", jsonStringify (JsValue.str (jsStrOr u (""))))]).1
      = [("firstSeen", jsonStringify (JsValue.num t)),
         ("country", jsonStringify (JsValue.str (jsStrOr c ("Unknown")))),
         ("device", jsonStringify (JsValue.str (jsStrOr d ("unknown")))),
         ("userAgent", jsonStringify (JsValue.str (jsStrOr u (""))))] := by
    simp [hsetGo_cons, hsetGo_nil, supdate]
  rw [hH0] at hsteps
  have hlookB : slookup (supdate (execCmd st (PipeCmd.sadd ("visitors") [id])).2
      ("visitor:" ++ id)
      (RedisObj.hash
        [("firstSeen", jsonStringify (JsValue.num t)),
         ("country", jsonStringify (JsValue.str (jsStrOr c ("Unknown")))),
         ("device", jsonStringify (JsValue.str (jsStrOr d ("unknown")))),
         ("userAgent", jsonStringify (JsValue.str (jsStrOr u (""))))]))
      ("visitor:" ++ id)
      = some (RedisObj.hash
        [("firstSeen", jsonStringify (JsValue.num t)),
         ("country", jsonStringify (JsValue.str (jsStrOr c ("Unknown")))),
         ("device", jsonStringify (JsValue.str (jsStrOr d ("unknown")))),
         ("userAgent", jsonStringify (JsValue.str (jsStrOr u (""))))]) :=
    slookup_supdate_self _ _ _
  have hdyn : trackDyn ("visitor:" ++ id) c d t
      = PipeCmd.hset ("visitor:" ++ id)
          ([("lastSeen", jsonStringify (JsValue.num t))]
           ++ (if strTruthy c then [("country", jsonStringify (JsValue.str (c.getD "")))] else [])
           ++ (if strTruthy d then [("device", jsonStringify (JsValue.str (d.getD "")))] else [])) := by
    cases hb : strTruthy c <;> cases hb2 : strTruthy d <;> simp [trackDyn, pipeHset, hb, hb2]
  rw [hdyn] at hsteps
  have hC := execCmd_hset_hash
    ([("lastSeen", jsonStringify (JsValue.num t))]
     ++ (if strTruthy c then [("country", jsonStringify (JsValue.str (c.getD "")))] else [])
     ++ (if strTruthy d then [("device", jsonStringify (JsValue.str (d.getD "")))] else []))
    hlookB
  rw [hC] at hsteps
  have hmem : ∀ kv ∈ ([("lastSeen", jsonStringify (JsValue.num t))]
      ++ (if strTruthy c then [("country", jsonStringify (JsValue.str (c.getD "")))] else [])
      ++ (if strTruthy d then [("device", jsonStringify (JsValue.str (d.getD "")))] else [])),
      kv.1 ≠ ("firstSeen" : String) := by
    intro kv hkv
    simp only [List.mem_append] at hkv
    rcases hkv with (hkv | hkv) | hkv
    · simp at hkv
      rw [hkv]
      simp
    · rw [mem_if_single hkv]
      simp
    · rw [mem_if_single hkv]
      simp
  have hfs1 := hsetGo_other ("firstSeen") _
    [("firstSeen", jsonStringify (JsValue.num t)),
     ("country", jsonStringify (JsValue.str (jsStrOr c ("Unknown")))),
     ("device", jsonStringify (JsValue.str (jsStrOr d ("unknown")))),
     ("userAgent", jsonStringify (JsValue.str (jsStrOr u (""))))] hmem
  have hlookC : slookup
      (supdate
        (supdate (execCmd st (PipeCmd.sadd ("visitors") [id])).2 ("visitor:" ++ id)
          (RedisObj.hash
            [("firstSeen", jsonStringify (JsValue.num t)),
             ("country", jsonStringify (JsValue.str (jsStrOr c ("Unknown")))),
             ("device", jsonStringify (JsValue.str (jsStrOr d ("unknown")))),
             ("userAgent", jsonStringify (JsValue.str (jsStrOr u (""))))]))
        ("visitor:" ++ id)
        (RedisObj.hash
          (hsetGo
            [("firstSeen", jsonStringify (JsValue.num t)),
             ("country", jsonStringify (JsValue.str (jsStrOr c ("Unknown")))),
             ("device", jsonStringify (JsValue.str (jsStrOr d ("unknown")))),
             ("userAgent", jsonStringify (JsValue.str (jsStrOr u (""))))]
            ([("lastSeen", jsonStringify (JsValue.num t))]
             ++ (if strTruthy c then [("country", jsonStringify (JsValue.str (c.getD "")))] else [])
             ++ (if strTruthy d then [("device", jsonStringify (JsValue.str (d.getD "")))] else []))).1))
      ("visitor:" ++ id)
      = some (RedisObj.hash
          (hsetGo
            [("firstSeen", jsonStringify (JsValue.num t)),
             ("country", jsonStringify (JsValue.str (jsStrOr c ("Unknown")))),
             ("device", jsonStringify (JsValue.str (jsStrOr d ("unknown")))),
             ("userAgent", jsonStringify (JsValue.str (jsStrOr u (""))))]
            ([("lastSeen", jsonStringify (JsValue.num t))]
             ++ (if strTruthy c then [("country", jsonStringify (JsValue.str (c.getD "")))] else [])
             ++ (if strTruthy d then [("device", jsonStringify (JsValue.str (d.getD "")))] else []))).1) :=
    slookup_supdate_self _ _ _
  obtain ⟨h1, hh1, hpres⟩ := trackTail_preserves _ id e c d _ hlookC
  refine ⟨_, h1, ?_, hh1, ?_⟩
  · rw [hrun, hcmds, hstatic, hdyn, hsteps]
  · rw [hpres ("firstSeen") (by decide), hfs1]
    simp [slookup]


/-- `trackEvent` on an existing visitor hash skips the static write:
`firstSeen` is untouched, while a truthy `country` is overwritten by
the dynamic write. -/
theorem trackEvent_existing (st : Store) (id : String) (e : EventType)
    (c d u : Option String) (t : Int) (h0 : List (String × String))
    (hst : slookup st ("visitor:" ++ id) = some (RedisObj.hash h0)) :
    ∃ st1 h1, trackEvent (Backend.up st) id e c d u t = Backend.up st1 ∧
      slookup st1 ("visitor:" ++ id) = some (RedisObj.hash h1) ∧
      slookup h1 ("firstSeen") = slookup h0 ("firstSeen") ∧
      (strTruthy c = true →
        slookup h1 ("country") = some (jsonStringify (JsValue.str (c.getD "")))) := by
  have hex : RedisProvider.rexists (Backend.up st) ("visitor:" ++ id) = true := by
    simp [RedisProvider.rexists, hst]
  have hrun : trackEvent (Backend.up st) id e c d u t
      = Backend.up (pipeExecRaw st (trackCmds true id e c d u t)).2 := by
    simp only [trackEvent, hex, Pipeline.exec]
  have hcmds : trackCmds true id e c d u t
      = PipeCmd.sadd ("visitors") [id] ::
        trackDyn ("visitor:" ++ id) c d t :: trackTail ("visitor:" ++ id) e c d := by
    simp [trackCmds]
  have hsteps : (pipeExecRaw st (PipeCmd.sadd ("visitors") [id] ::
        trackDyn ("visitor:" ++ id) c d t :: trackTail ("visitor:" ++ id) e c d)).2
      = (pipeExecRaw
          (execCmd (execCmd st (PipeCmd.sadd ("visitors") [id])).2
            (trackDyn ("visitor:" ++ id) c d t)).2
          (trackTail ("visitor:" ++ id) e c d)).2 := by
    simp [pipeExecRaw]
  have hA : slookup (execCmd st (PipeCmd.sadd ("visitors") [id])).2 ("visitor:" ++ id)
      = some (RedisObj.hash h0) := by
    rw [execCmd_other_key st (PipeCmd.sadd ("visitors") [id]) ("visitor:" ++ id)
      (vk_ne_visitors id)]
    exact hst
  have hdyn : trackDyn ("visitor:" ++ id) c d t
      = PipeCmd.hset ("visitor:" ++ id)
          ([("lastSeen", jsonStringify (JsValue.num t))]
           ++ (if strTruthy c then [("country", jsonStringify (JsValue.str (c.getD "")))] else [])
           ++ (if strTruthy d then [("device", jsonStringify (JsValue.str (d.getD "")))] else [])) := by
    cases hb : strTruthy c <;> cases hb2 : strTruthy d <;> simp [trackDyn, pipeHset, hb, hb2]
  have hB := execCmd_hset_hash
    ([("lastSeen", jsonStringify (JsValue.num t))]
     ++ (if strTruthy c then [("country", jsonStringify (JsValue.str (c.getD "")))] else [])
     ++ (if strTruthy d then [("device", jsonStringify (JsValue.str (d.getD "")))] else []))
    hA
  have hmem : ∀ kv ∈ ([("lastSeen", jsonStringify (JsValue.num t))]
      ++ (if strTruthy c then [("country", jsonStringify (JsValue.str (c.getD "")))] else [])
      ++ (if strTruthy d then [("device", jsonStringify (JsValue.str (d.getD "")))] else [])),
      kv.1 ≠ ("firstSeen" : String) := by
    intro kv hkv
    simp only [List.mem_append] at hkv
    rcases hkv with (hkv | hkv) | hkv
    · simp at hkv
      rw [hkv]
      simp
    · rw [mem_if_single hkv]
      simp
    · rw [mem_if_single hkv]
      simp
  have hfs1 := hsetGo_other ("firstSeen") _ h0 hmem
  have hcountry : strTruthy c = true →
      slookup (hsetGo h0
        ([("lastSeen", jsonStringify (JsValue.num t))]
         ++ (if strTruthy c then [("country", jsonStringify (JsValue.str (c.getD "")))] else [])
         ++ (if strTruthy d then [("device", jsonStringify (JsValue.str (d.getD "")))] else []))).1
        ("country") = some (jsonStringify (JsValue.str (c.getD ""))) := by
    intro htc
    cases hb2 : strTruthy d
    · simp only [htc, hb2]
      simp
      rw [hsetGo_cons, hsetGo_cons, hsetGo_nil]
      exact slookup_supdate_self _ _ _
    · simp only [htc, hb2]
      simp
      rw [hsetGo_cons, hsetGo_cons, hsetGo_cons, hsetGo_nil]
      rw [slookup_supdate_ne _ _ _ _ (by simp : ("device" : String) ≠ ("country" : String))]
      exact slookup_supdate_self _ _ _
  have hlookC : slookup
      (supdate (execCmd st (PipeCmd.sadd ("visitors") [id])).2 ("visitor:" ++ id)
        (RedisObj.hash
          (hsetGo h0
            ([("lastSeen", jsonStringify (JsValue.num t))]
             ++ (if strTruthy c then [("country", jsonStringify (JsValue.str (c.getD "")))] else [])
             ++ (if strTruthy d then [("device", jsonStringify (JsValue.str (d.getD "")))] else []))).1))
      ("visitor:" ++ id)
      = some (RedisObj.hash
          (hsetGo h0
            ([("lastSeen", jsonStringify (JsValue.num t))]
             ++ (if strTruthy c then [("country", jsonStringify (JsValue.str (c.getD "")))] else [])
             ++ (if strTruthy d then [("device", jsonStringify (JsValue.str (d.getD "")))] else []))).1) :=
    slookup_supdate_self _ _ _
  obtain ⟨h1, hh1, hpres⟩ := trackTail_preserves _ id e c d _ hlookC
  refine ⟨_, h1, ?_, hh1, ?_, ?_⟩
  · rw [hrun, hcmds, hsteps, hdyn, hB]
  · rw [hpres ("firstSeen") (by decide), hfs1]
  · intro htc
    rw [hpres ("country") (by decide), hcountry htc]


/-- Reading a field of a parsed hash parses the raw field. -/
theorem slookup_parseHash (h : List (String × String)) (f : String) :
    slookup (parseHash h) f = Option.map parseHashValue (slookup h f) := by
  induction h with
  | nil => rfl
  | cons kv t ih =>
    cases kv with
    | mk k v =>
      by_cases hk : k = f
      · simp [parseHash, slookup, hk]
      · simp [parseHash, slookup, hk]
        simpa [parseHash] using ih

/-- Stored values parse back to themselves. -/
theorem parseHashValue_stringify (v : JsValue) : parseHashValue (jsonStringify v) = v := by
  unfold parseHashValue
  rw [jsonParse_stringify]

/-- C3: starting from a store where the visitor id is absent, two
`trackEvent` calls with different (truthy) country values leave the
stored visitor hash with the second call's country, while `firstSeen`
still carries the first call's timestamp: `firstSeen` is write-once,
and `country` is overwritten on every event. -/
theorem C3_country_overwrite_firstSeen_once (st : Store) (id c1 c2 : String)
    (e1 e2 : EventType) (d1 d2 u1 u2 : Option String) (t1 t2 : Int)
    (h0 : slookup st ("visitor:" ++ id) = none) (hc2 : c2 ≠ "") (_hc12 : c1 ≠ c2) :
    slookup (RedisProvider.hgetall
        (trackEvent (trackEvent (Backend.up st) id e1 (some c1) d1 u1 t1)
          id e2 (some c2) d2 u2 t2) ("visitor:" ++ id)) ("country")
      = some (JsValue.str c2) ∧
    slookup (RedisProvider.hgetall
        (trackEvent (trackEvent (Backend.up st) id e1 (some c1) d1 u1 t1)
          id e2 (some c2) d2 u2 t2) ("visitor:" ++ id)) ("firstSeen")
      = some (JsValue.num t1) := by
  obtain ⟨st1, h1, he1, hl1, hf1⟩ := trackEvent_fresh st id e1 (some c1) d1 u1 t1 h0
  rw [he1]
  obtain ⟨st2, h2, he2, hl2, hfp, hcp⟩ :=
    trackEvent_existing st1 id e2 (some c2) d2 u2 t2 h1 hl1
  rw [he2]
  have htc : strTruthy (some c2) = true := by simp [strTruthy, hc2]
  have hc2v : slookup h2 ("country") = some (jsonStringify (JsValue.str c2)) := by
    simpa using hcp htc
  have hf2 : slookup h2 ("firstSeen") = some (jsonStringify (JsValue.num t1)) := by
    rw [hfp, hf1]
  constructor
  · simp [RedisProvider.hgetall, hl2, slookup_parseHash, hc2v, parseHashValue_stringify]
  · simp [RedisProvider.hgetall, hl2, slookup_parseHash, hf2, parseHashValue_stringify]

/-- Witness for C3 at concrete ids, countries and timestamps. -/
theorem C3_witness :
    slookup (RedisProvider.hgetall
        (trackEvent (trackEvent (Backend.up []) ("v1") EventType.query (some ("US"))
            (some ("mobile")) (some ("ua")) 100)
          ("v1") EventType.query (some ("DE")) none none 200) ("visitor:" ++ "v1")) ("country")
      = some (JsValue.str ("DE")) ∧
    slookup (RedisProvider.hgetall
        (trackEvent (trackEvent (Backend.up []) ("v1") EventType.query (some ("US"))
            (some ("mobile")) (some ("ua")) 100)
          ("v1") EventType.query (some ("DE")) none none 200) ("visitor:" ++ "v1")) ("firstSeen")
      = some (JsValue.num 100) :=
  C3_country_overwrite_firstSeen_once [] ("v1") ("US") ("DE") EventType.query EventType.query
    (some ("mobile")) none (some ("ua")) none 100 200 rfl (by decide) (by decide)

end RepoMind
